import Mathlib

/-!
Verification development for the purchase-order spreadsheet combiner
(`combine_purchase_orders.py`).

The Python source is shallowly embedded: pandas cells are modelled as
`Option String` (`none` = NaN, `some s` = a cell whose `str()` is `s`),
a data frame is a rectangular grid with an explicit column count, and
dictionaries are association lists.  The handful of regular expressions
the script uses are embedded as hand-written, executable matchers with
Python `re.search` leftmost-match semantics, specialised to the exact
patterns appearing in the source.  Character-level helpers (strip,
lower, split) mirror Python string methods on ASCII data.
-/

namespace PO

/-- Python whitespace characters recognised by `str.strip()` / `\s` (ASCII). -/
def isPySpace (c : Char) : Bool :=
  c = ' ' || c = '\t' || c = '\n' || c = '\r' || c = '\x0b' || c = '\x0c'

/-- The character class `[_\s\.\-\(\)]` of the first `re.sub` in `normalize_text`. -/
def isNormClass (c : Char) : Bool :=
  c = '_' || isPySpace c || c = '.' || c = '-' || c = '(' || c = ')'

/-- ASCII lower-casing, as `str.lower()` acts on ASCII input. -/
def pyLower (c : Char) : Char :=
  if 65 ≤ c.toNat ∧ c.toNat ≤ 90 then Char.ofNat (c.toNat + 32) else c

/-- ASCII upper-casing, as `str.upper()` acts on ASCII input. -/
def pyUpper (c : Char) : Char :=
  if 97 ≤ c.toNat ∧ c.toNat ≤ 122 then Char.ofNat (c.toNat - 32) else c

/-- Remove trailing Python whitespace. -/
def stripEnd : List Char → List Char
  | [] => []
  | c :: cs =>
    match stripEnd cs with
    | [] => if isPySpace c then [] else [c]
    | d :: ds => c :: d :: ds

/-- `str.strip()`: remove leading and trailing whitespace. -/
def pyStrip (l : List Char) : List Char :=
  stripEnd (l.dropWhile isPySpace)

/-- `str.strip()` on strings. -/
def stripStr (s : String) : String := String.mk (pyStrip s.data)

/-- `str.lower()` on strings (ASCII). -/
def lowerStr (s : String) : String := String.mk (s.data.map pyLower)

/-- `str.upper()` on strings (ASCII). -/
def upperStr (s : String) : String := String.mk (s.data.map pyUpper)

/-- Replace every maximal run of characters satisfying `p` by a single space,
the effect of `re.sub(r'CLASS+', ' ', s)`.  The flag records whether the
previous character was part of a run. -/
def collapseRuns (p : Char → Bool) : List Char → Bool → List Char
  | [], _ => []
  | c :: cs, inRun =>
    if p c then
      if inRun then collapseRuns p cs true
      else ' ' :: collapseRuns p cs true
    else c :: collapseRuns p cs false

/-- The character pipeline of `normalize_text` (source lines 167-175):
strip, lower-case, collapse `[_\s\.\-\(\)]+` runs to a single space,
collapse `\s+` runs to a single space, strip again. -/
def normalizeChars (l : List Char) : List Char :=
  pyStrip (collapseRuns isPySpace (collapseRuns isNormClass ((pyStrip l).map pyLower) false) false)

/-- `normalize_text` (source lines 167-175).  The guard `if not text or
pd.isna(text): return ''` maps empty (and missing) input to the empty
string; on a `str` argument `pd.isna` is false, so only emptiness matters. -/
def normalize_text (s : String) : String :=
  if s = "" then "" else String.mk (normalizeChars s.data)

/-- Helper for `splitWs`: accumulate the current word (reversed). -/
def splitWsGo : List Char → List Char → List (List Char)
  | [], cur => if cur = [] then [] else [cur.reverse]
  | c :: cs, cur =>
    if isPySpace c then
      if cur = [] then splitWsGo cs [] else cur.reverse :: splitWsGo cs []
    else splitWsGo cs (c :: cur)

/-- Python `str.split()` with no argument: split on whitespace runs,
dropping empty pieces. -/
def splitWs (l : List Char) : List (List Char) := splitWsGo l []

/-- The word list of a (normalized) label, `source_normalized.split()`. -/
def wordsOf (s : String) : List String := (splitWs s.data).map String.mk

/-- Python set equality on word lists: same elements. -/
def setEqB (a b : List String) : Bool := a.all b.contains && b.all a.contains

/-- Python `set.issubset` on word lists. -/
def subsetB (a b : List String) : Bool := a.all b.contains

/-- `len(source_words & target_words)`: number of distinct shared words. -/
def interScore (a b : List String) : Nat :=
  (a.dedup.filter (fun x => b.contains x)).length

/-- `REQUIRED_COLUMNS` (source lines 33-120): the canonical output schema. -/
def REQUIRED_COLUMNS : List String := [
  "Folder",
  "Product Type (NEW)",
  "Source_File",
  "Sheet_Name",
  "Production Order Form",
  "Reference Format No",
  "PO Reference",
  "Reference Order No",
  "Order Form",
  "Order Type",
  "Order Date",
  "O.F. Date",
  "PO Date",
  "Generic Name",
  "Brand Name",
  "Quantity",
  "Pack Size",
  "Product Rate (NEW)",
  "Packing Size",
  "Packing Type",
  "Strength",
  "Net Content",
  "M.R.P.",
  "M.R.P. (Per Strip)",
  "Exp. Date",
  "Shelf Life",
  "Flavour",
  "Colour",
  "Packaging",
  "Bottle Type",
  "Measuring Cap",
  "Spray Pump",
  "ROPP Cap",
  "Closure",
  "Cap Color",
  "Label Provided By",
  "Carton Provided By",
  "Dropper",
  "PVC Size",
  "PVC Colour",
  "PVC Color & Type",
  "Blister Type",
  "Capsules Size",
  "Capsules Color",
  "Capsule Type",
  "Punch Size",
  "Tablet Color",
  "Coating Type",
  "Jar",
  "Jar Type",
  "Jar Lid Color",
  "Tin Type",
  "Tin / Jar Type",
  "Tin / Jar Rim Type",
  "Corrugated Box",
  "Corrugated Box Pack Size",
  "Corrugated Tin",
  "Cap / Lid / Spoon",
  "Spoon",
  "Leaflet",
  "Dropper (if not counted earlier)",
  "Strapping",
  "Wrapping",
  "Shrinking",
  "Dispatched Detail",
  "Date Of Dispatch",
  "Company Name",
  "Name Of Client",
  "Name Of Marketed By",
  "Contact Person",
  "Contact Number",
  "Contact Detail Of Dispatch",
  "Specific Requirement If Any",
  "Artwork Revision",
  "Artwork Revision No",
  "Prepared By",
  "Checked By",
  "Approved Date",
  "Issued By Sign & Date",
  "Checked & Authorised Sign & Date",
  "Authorised Sign",
  "Designation",
  "Rate",
  "Due Payment",
  "Remark",
  "Product Batch Number"]

/-- The `variations` dictionary of `match_column_name` (source lines 210-315),
in source order; the literal has no duplicate keys, so association-list
lookup coincides with Python dict lookup. -/
def variations : List (String × String) := [
  ("reference format no", "Reference Format No"),
  ("ref format no", "Reference Format No"),
  ("reference format", "Reference Format No"),
  ("po reference", "PO Reference"),
  ("po ref", "PO Reference"),
  ("reference order no", "Reference Order No"),
  ("order form number", "Order Form"),
  ("order form no", "Order Form"),
  ("order form", "Order Form"),
  ("order type", "Order Type"),
  ("order date", "Order Date"),
  ("of date", "O.F. Date"),
  ("o.f. date", "O.F. Date"),
  ("po date", "PO Date"),
  ("generic name", "Generic Name"),
  ("brand name", "Brand Name"),
  ("quantity", "Quantity"),
  ("qty", "Quantity"),
  ("qty uom", "Qty (UOM)"),
  ("qty (uom)", "Qty (UOM)"),
  ("pack size", "Pack Size"),
  ("packing size", "Packing Size"),
  ("packing type", "Packing Type"),
  ("strength", "Strength"),
  ("net content", "Net Content"),
  ("m.r.p", "M.R.P."),
  ("mrp", "M.R.P."),
  ("m.r.p.", "M.R.P."),
  ("m.r.p. per strip", "M.R.P. (Per Strip)"),
  ("exp date", "Exp. Date"),
  ("expiry date", "Exp. Date"),
  ("shelf life", "Shelf Life"),
  ("flavour", "Flavour"),
  ("flavor", "Flavour"),
  ("colour", "Colour"),
  ("color", "Colour"),
  ("packaging", "Packaging"),
  ("bottle type", "Bottle Type"),
  ("measuring cap", "Measuring Cap"),
  ("spray pump", "Spray Pump"),
  ("ropp cap", "ROPP Cap"),
  ("closure", "Closure"),
  ("cap color", "Cap Color"),
  ("cap colour", "Cap Color"),
  ("label provided by", "Label Provided By"),
  ("carton provided by", "Carton Provided By"),
  ("dropper", "Dropper"),
  ("pvc size", "PVC Size"),
  ("pvc colour", "PVC Colour"),
  ("pvc color", "PVC Colour"),
  ("pvc color type", "PVC Color & Type"),
  ("pvc color & type", "PVC Color & Type"),
  ("blister type", "Blister Type"),
  ("capsules size", "Capsules Size"),
  ("capsule size", "Capsules Size"),
  ("capsules color", "Capsules Color"),
  ("capsule color", "Capsules Color"),
  ("capsules colour", "Capsules Color"),
  ("capsule type", "Capsule Type"),
  ("tablet color", "Tablet Color"),
  ("tablet colour", "Tablet Color"),
  ("coating type", "Coating Type"),
  ("punch size", "Punch Size"),
  ("jar", "Jar"),
  ("jar type", "Jar Type"),
  ("tin type", "Tin Type"),
  ("tin jar type", "Tin / Jar Type"),
  ("tin / jar type", "Tin / Jar Type"),
  ("tin jar rim type", "Tin / Jar Rim Type"),
  ("tin / jar rim type", "Tin / Jar Rim Type"),
  ("jar lid color", "Jar Lid Color"),
  ("corrugated box", "Corrugated Box"),
  ("corrugated box pack size", "Corrugated Box Pack Size"),
  ("corrugated tin", "Corrugated Tin"),
  ("cap lid spoon", "Cap / Lid / Spoon"),
  ("cap / lid / spoon", "Cap / Lid / Spoon"),
  ("spoon", "Spoon"),
  ("leaflet", "Leaflet"),
  ("strapping", "Strapping"),
  ("wrapping", "Wrapping"),
  ("shrinking", "Shrinking"),
  ("dispatched detail", "Dispatched Detail"),
  ("company name", "Company Name"),
  ("name of client", "Name Of Client"),
  ("name of marketed by", "Name Of Marketed By"),
  ("marketed by", "Name Of Marketed By"),
  ("contact person", "Contact Person"),
  ("contact number", "Contact Number"),
  ("contact detail of dispatch", "Contact Detail Of Dispatch"),
  ("date of dispatch", "Date Of Dispatch"),
  ("specific requirement if any", "Specific Requirement If Any"),
  ("artwork revision", "Artwork Revision"),
  ("artwork revision no", "Artwork Revision No"),
  ("prepared by", "Prepared By"),
  ("checked by", "Checked By"),
  ("approved date", "Approved Date"),
  ("issued by sign date", "Issued By Sign & Date"),
  ("checked authorised sign date", "Checked & Authorised Sign & Date"),
  ("authorised sign", "Authorised Sign"),
  ("designation", "Designation"),
  ("rate", "Rate"),
  ("due payment", "Due Payment"),
  ("remark", "Remark"),
  ("product batch number", "Product Batch Number")]

/-- Dictionary lookup `variations[source_normalized]`. -/
def lookupAlias (sn : String) : Option String :=
  (variations.find? (fun p => p.1 = sn)).map (fun p => p.2)

/-- The fuzzy-matching loop of `match_column_name` (source lines 196-207).
`.inl t` is the early `return target` on word-set equality; `.inr best`
is falling through with the best strict-subset candidate so far. -/
def fuzzyLoop (sw : List String) : List String → Option String → Nat → String ⊕ Option String
  | [], best, _ => .inr best
  | t :: ts, best, bestScore =>
    let tw := wordsOf (normalize_text t)
    if setEqB sw tw then .inl t
    else if subsetB sw tw || subsetB tw sw then
      let score := interScore sw tw
      if bestScore < score then fuzzyLoop sw ts (some t) score
      else fuzzyLoop sw ts best bestScore
    else fuzzyLoop sw ts best bestScore

/-- `match_column_name` (source lines 178-320): exact normalized match,
then the fuzzy loop (word-set equality returns immediately, strict
subset relations are scored), then the `variations` table, then the
best-scoring subset candidate (possibly `none`). -/
def match_column_name (source_name : String) (target_columns : List String) : Option String :=
  if source_name = "" then none
  else
    let sn := normalize_text source_name
    match target_columns.find? (fun t => normalize_text t = sn) with
    | some t => some t
    | none =>
      match fuzzyLoop (wordsOf sn) target_columns none 0 with
      | .inl t => some t
      | .inr best =>
        match lookupAlias sn with
        | some c => some c
        | none => best

/-- Modelled from the spec (§4.2, and claim C2's wording): the Matcher's
strategy order written as a pipeline — first exact normalized equality,
then first word-set equality, then the Alias Table, and only then the
best strict-subset candidate.  Used solely as the comparison point for
the refinement claim C2. -/
def bestSubsetMatch (sw : List String) : List String → Option String → Nat → Option String
  | [], best, _ => best
  | t :: ts, best, bestScore =>
    let tw := wordsOf (normalize_text t)
    if (subsetB sw tw || subsetB tw sw) && !setEqB sw tw then
      let score := interScore sw tw
      if bestScore < score then bestSubsetMatch sw ts (some t) score
      else bestSubsetMatch sw ts best bestScore
    else bestSubsetMatch sw ts best bestScore

/-- Modelled from the spec (§4.2): priority pipeline for the Matcher. -/
def matchSpec (source_name : String) (target_columns : List String) : Option String :=
  let sn := normalize_text source_name
  let sw := wordsOf sn
  match target_columns.find? (fun t => normalize_text t = sn) with
  | some t => some t
  | none =>
    match target_columns.find? (fun t => setEqB sw (wordsOf (normalize_text t))) with
    | some t => some t
    | none =>
      match lookupAlias sn with
      | some c => some c
      | none => bestSubsetMatch sw target_columns none 0

/-! ### Embedded regular expressions

Each `re` pattern appearing in the source is embedded as an executable
matcher with `re.search` leftmost-match semantics.  None of the patterns
needs backtracking: every greedy sub-expression (`\s*`, `[^)]*`, a
character-class `+`/`*` capture) is followed by a character outside the
repeated class or by the end of the pattern. -/

/-- Case-insensitive literal match at the head; returns the rest. -/
def matchLitCI : List Char → List Char → Option (List Char)
  | [], rest => some rest
  | _ :: _, [] => none
  | a :: as, b :: bs => if pyLower a = pyLower b then matchLitCI as bs else none

/-- `re.search` driver: try the literal (then `tl`) at each position,
left to right; the first position where the whole pattern matches wins. -/
def reSearch (lit : List Char) (tl : List Char → Option (List Char)) : List Char → Option (List Char)
  | [] =>
    match matchLitCI lit [] with
    | some r => tl r
    | none => none
  | c :: cs =>
    match matchLitCI lit (c :: cs) with
    | some r =>
      match tl r with
      | some cap => some cap
      | none => reSearch lit tl cs
    | none => reSearch lit tl cs

/-- `\s*` (greedy; always followed by a non-whitespace literal here). -/
def skipPy (l : List Char) : List Char := l.dropWhile isPySpace

/-- Expect a single literal character. -/
def expectChar (c : Char) : List Char → Option (List Char)
  | [] => none
  | d :: ds => if d = c then some ds else none

/-- Capture `(CLASS+)`: a nonempty greedy run of characters in the class. -/
def capClass (p : Char → Bool) (l : List Char) : Option (List Char) :=
  let run := l.takeWhile p
  if run = [] then none else some run

/-- Capture `(.*)`: everything up to the next newline (possibly empty). -/
def capRest (l : List Char) : Option (List Char) :=
  some (l.takeWhile (fun c => ¬ c = '\n'))

/-- `\s*:\s*` followed by a capture. -/
def tailColonCapture (cap : List Char → Option (List Char)) (l : List Char) : Option (List Char) :=
  match expectChar ':' (skipPy l) with
  | none => none
  | some r => cap (skipPy r)

/-- `\w` (ASCII): letters, digits, underscore. -/
def isWordChar (c : Char) : Bool := c.isAlphanum || c = '_'

/-- The date class: digits, dash, forward slash. -/
def isDateChar (c : Char) : Bool := c.isDigit || c = '-' || c = '/'

/-- `r'Reference format no\.\*rev no\.:\s*(.*)'` — note `\.\*` is the
two literal characters `.` `*`, so the literal prefix is
`Reference format no.*rev no.:`. -/
def patRefFormat (s : String) : Option String :=
  (reSearch "Reference format no.*rev no.:".data (fun r => capRest (skipPy r)) s.data).map String.mk

/-- `r'Order form number\s*:\s*(\w+)'`. -/
def patOrderForm (s : String) : Option String :=
  (reSearch "Order form number".data (tailColonCapture (capClass isWordChar)) s.data).map String.mk

/-- The `O.F. Date` pattern: literal, colon, captured date-class run. -/
def patOFDate (s : String) : Option String :=
  (reSearch "O.F. Date".data (tailColonCapture (capClass isDateChar)) s.data).map String.mk

/-- The `PO Date` pattern: literal, colon, captured date-class run. -/
def patPODate (s : String) : Option String :=
  (reSearch "PO Date".data (tailColonCapture (capClass isDateChar)) s.data).map String.mk

/-- `r'POreference\s*:\s*(.*)'`. -/
def patPORef (s : String) : Option String :=
  (reSearch "POreference".data (tailColonCapture capRest) s.data).map String.mk

/-- `r'Order type\s*:\s*(.*)'`. -/
def patOrderType (s : String) : Option String :=
  (reSearch "Order type".data (tailColonCapture capRest) s.data).map String.mk

/-- `r'Contact person\s*\([^)]*\)\s*:\s*(.*)'`. -/
def patContact (s : String) : Option String :=
  (reSearch "Contact person".data
    (fun r =>
      match expectChar '(' (skipPy r) with
      | none => none
      | some r2 =>
        match expectChar ')' (r2.dropWhile (fun c => ¬ c = ')')) with
        | none => none
        | some r3 => tailColonCapture capRest r3)
    s.data).map String.mk

/-! ### Raw sheet grids and the Sheet Extractor -/

/-- A pandas data frame read with `header=None`: a rectangular grid of
cells.  A cell is `none` for NaN/empty and `some s` for a cell whose
`str()` rendering is `s`.  The column count is explicit, as in pandas. -/
structure DF where
  rows : List (List (Option String))
  ncols : Nat

/-- `len(df)`. -/
def DF.nrows (df : DF) : Nat := df.rows.length

/-- `df.iloc[r, c]` for in-range indices (all uses in the source are
guarded in range; out-of-range access is mapped to an empty cell). -/
def DF.cell (df : DF) (r c : Nat) : Option String :=
  if r < df.nrows ∧ c < df.ncols then
    match df.rows.get? r with
    | none => none
    | some row =>
      match row.get? c with
      | none => none
      | some v => v
  else none

/-- `str(cell)`: a NaN cell prints as `"nan"`. -/
def cellStr (o : Option String) : String :=
  match o with
  | some s => s
  | none => "nan"

/-- Is `needle` a (contiguous) substring of `hay` (`needle in hay`)? -/
def containsSub (hay needle : List Char) : Bool :=
  match hay with
  | [] => needle = []
  | _ :: t => needle.isPrefixOf hay || containsSub t needle

/-- `keyword in row_val.lower()` for an already-lower-case keyword. -/
def containsCI (s keyword : String) : Bool := containsSub (s.data.map pyLower) keyword.data

/-- `safe_extract` (source lines 323-334): bounds-checked cell access,
`pd.notna`, pattern search, `group(1).strip()`. -/
def safe_extract (df : DF) (rowIndex colIndex : Nat) (pat : String → Option String) : Option String :=
  if rowIndex < df.nrows ∧ colIndex < df.ncols then
    match df.cell rowIndex colIndex with
    | some v => (pat v).map stripStr
    | none => none
  else none

/-- An extracted record: the `data` dict, as an association list with
Python-dict overwrite semantics. -/
abbrev Rec := List (String × String)

/-- Dict lookup. -/
def recGet : Rec → String → Option String
  | [], _ => none
  | (k, v) :: t, key => if k = key then some v else recGet t key

/-- Dict assignment `data[key] = val` (overwrite or append). -/
def recSet : Rec → String → String → Rec
  | [], key, val => [(key, val)]
  | (k, v) :: t, key, val => if k = key then (k, val) :: t else (k, v) :: recSet t key val

/-- Dict membership `key in data`. -/
def recHas (r : Rec) (k : String) : Bool := (recGet r k).isSome

/-- Python truthiness of an extraction result: `if m:` rejects `None`
and the empty string. -/
def truthy (o : Option String) : Option String :=
  match o with
  | some s => if s = "" then none else some s
  | none => none

/-- The value the header scan would store for `Reference Format No` at
row `i` (source lines 352-355): keyword test on `str(df.iloc[i,0])`,
then `safe_extract`, kept only if truthy. -/
def qualRefFormat (df : DF) (i : Nat) : Option String :=
  if containsCI (cellStr (df.cell i 0)) "reference format" then
    truthy (safe_extract df i 0 patRefFormat)
  else none

/-- `Order Form` header-scan candidate (source lines 358-361). -/
def qualOrderForm (df : DF) (i : Nat) : Option String :=
  if containsCI (cellStr (df.cell i 0)) "order form number"
      || containsCI (cellStr (df.cell i 0)) "order form" then
    truthy (safe_extract df i 0 patOrderForm)
  else none

/-- `O.F. Date` header-scan candidate (source lines 364-367). -/
def qualOFDate (df : DF) (i : Nat) : Option String :=
  if containsCI (cellStr (df.cell i 0)) "o.f. date"
      || containsCI (cellStr (df.cell i 0)) "of date" then
    truthy (safe_extract df i 0 patOFDate)
  else none

/-- `PO Date` header-scan candidate (source lines 370-373). -/
def qualPODate (df : DF) (i : Nat) : Option String :=
  if containsCI (cellStr (df.cell i 0)) "po date" then
    truthy (safe_extract df i 0 patPODate)
  else none

/-- `PO Reference` header-scan candidate (source lines 376-379). -/
def qualPORef (df : DF) (i : Nat) : Option String :=
  if containsCI (cellStr (df.cell i 0)) "poreference"
      || containsCI (cellStr (df.cell i 0)) "po reference" then
    truthy (safe_extract df i 0 patPORef)
  else none

/-- `Order Type` header-scan candidate (source lines 382-385). -/
def qualOrderType (df : DF) (i : Nat) : Option String :=
  if containsCI (cellStr (df.cell i 0)) "order type" then
    truthy (safe_extract df i 0 patOrderType)
  else none

/-- `Contact Person` header-scan candidate (source lines 388-391). -/
def qualContact (df : DF) (i : Nat) : Option String :=
  if containsCI (cellStr (df.cell i 0)) "contact person" then
    truthy (safe_extract df i 0 patContact)
  else none

/-- Store a qualifying candidate (each header `if`-block assigns
unconditionally when its candidate is truthy). -/
def applyField (key : String) (q : Option String) (data : Rec) : Rec :=
  match q with
  | some v => recSet data key v
  | none => data

/-- One iteration of the header-scan loop body (source lines 346-391):
the seven keyword blocks run in source order on row `i`. -/
def headerRowStep (df : DF) (data : Rec) (i : Nat) : Rec :=
  if df.ncols = 0 then data
  else
    applyField "Contact Person" (qualContact df i)
      (applyField "Order Type" (qualOrderType df i)
        (applyField "PO Reference" (qualPORef df i)
          (applyField "PO Date" (qualPODate df i)
            (applyField "O.F. Date" (qualOFDate df i)
              (applyField "Order Form" (qualOrderForm df i)
                (applyField "Reference Format No" (qualRefFormat df i) data))))))

/-- `range(3, min(10, len(df)))`. -/
def headerRange (df : DF) : List Nat := List.range' 3 (min 10 df.nrows - 3)

/-- The header metadata scan (source lines 345-393). -/
def headerScan (df : DF) (data : Rec) : Rec :=
  (headerRange df).foldl (headerRowStep df) data

/-- Python `str.isdigit()`: nonempty and all digits (ASCII). -/
def isDigitStr (s : String) : Bool := ¬ s = "" && s.data.all Char.isDigit

/-- The non-numeric MRP placeholders (source line 431). -/
def mrpPlaceholders : List String :=
  ["EXPORT", "NA", "PHY.SAMPLE", "TO BE CONFIRM", "PERUNITPRICE", ""]

/-- `re.sub(r'^Rs\.?\s*', '', s, flags=re.IGNORECASE)`: drop a leading
`Rs`/`rs` with optional dot and trailing whitespace. -/
def subRs (s : String) : String :=
  match s.data with
  | a :: b :: rest =>
    if pyLower a = 'r' ∧ pyLower b = 's' then
      String.mk ((match rest with
        | '.' :: rr => rr
        | _ => rest).dropWhile isPySpace)
    else s
  | _ => s

/-- `re.sub(r'[,\s]', '', s)`. -/
def removeCommaWs (s : String) : String :=
  String.mk (s.data.filter (fun c => ¬ (c = ',' || isPySpace c)))

/-- `re.match(r'[\"\']?([\d,]+)', s)`: anchored optional quote, then the
captured leading run of digits/commas (`none` when the run is empty). -/
def qtyLead (s : String) : Option String :=
  let l := match s.data with
           | c :: cs => if c = '"' ∨ c = '\'' then cs else s.data
           | [] => []
  let run := l.takeWhile (fun c => c.isDigit || c = ',')
  if run = [] then none else some (String.mk run)

/-- The value stored for a matched title (source lines 425-446): the
MRP special case (prefer the truthy column-4 value after currency/comma
cleanup, falling back to the details cell on a placeholder), the
quantity special case (leading numeric run, commas removed), or the
details cell itself. -/
def computeValue (matched detailsValue : String) (additionalValue : Option String) : String :=
  if containsSub (lowerStr matched).data "m.r.p".data then
    match additionalValue with
    | some a =>
      if ¬ a = "" then
        let mrpClean := removeCommaWs (stripStr (subRs a))
        if ¬ mrpClean = "" ∧ ¬ upperStr mrpClean ∈ mrpPlaceholders then mrpClean
        else detailsValue
      else detailsValue
    | none => detailsValue
  else if containsSub (lowerStr matched).data "quantity".data
      || containsSub (lowerStr matched).data "qty".data then
    match qtyLead detailsValue with
    | some run => stripStr (String.mk (run.data.filter (fun c => ¬ c = ',')))
    | none => detailsValue
  else detailsValue

/-- One iteration of the title/value scan loop body (source lines
397-448) on row `i`: title cell at column 1, details at column 2,
additional at column 4; placeholder titles are skipped; the Matcher
resolves the title; an already-populated canonical column is never
overwritten (`matched_column not in data`). -/
def titleRowStep (df : DF) (data : Rec) (i : Nat) : Rec :=
  if df.ncols < 3 then data
  else
    match df.cell i 1 with
    | none => data
    | some titleCell =>
      let title := stripStr titleCell
      if ¬ title = "" ∧ ¬ isDigitStr title ∧ ¬ lowerStr title ∈ ["no.", "no", "title", "details"] then
        let detailsValue := match df.cell i 2 with
                            | some d => stripStr d
                            | none => ""
        let additionalValue := if 4 < df.ncols then (df.cell i 4).map stripStr else none
        match match_column_name title REQUIRED_COLUMNS with
        | some matched =>
          if ¬ recHas data matched then
            if ¬ detailsValue = "" ∧ ¬ upperStr detailsValue ∈ ["NA", "N/A", ""] then
              recSet data matched (computeValue matched detailsValue additionalValue)
            else data
          else data
        | none => data
      else data

/-- `range(8, len(df))`. -/
def titleRange (df : DF) : List Nat := List.range' 8 (df.nrows - 8)

/-- The title/value table scan (source lines 396-450). -/
def titleScan (df : DF) (data : Rec) : Rec :=
  (titleRange df).foldl (titleRowStep df) data

/-- `extract_data_from_sheet` (source lines 337-456): reject empty or
short sheets, run the header scan then the title scan, and apply the
acceptance gate (at least one of Order Form / Reference Format No /
PO Reference must be populated).  `fileName` and `sheetName` are
accepted but never stored, as in the source. -/
def extract_data_from_sheet (df : DF) (fileName sheetName : String) : Option Rec :=
  if df.nrows = 0 ∨ df.ncols = 0 ∨ df.nrows < 5 then none
  else
    let data := titleScan df (headerScan df [])
    if ¬ recHas data "Order Form" ∧ ¬ recHas data "Reference Format No"
        ∧ ¬ recHas data "PO Reference" then none
    else some data

/-! ### Year Aggregator: projection, deduplication -/

/-- A row of the projected combined table: one `Option String` cell per
canonical column (`none` = the `None` placeholder, i.e. NaN). -/
abbrev Row := List (String × Option String)

/-- `row.get(col)` / `row[col]` on a projected row. -/
def rowGet : Row → String → Option String
  | [], _ => none
  | (k, v) :: t, key => if k = key then v else rowGet t key

/-- The projection loop body (source lines 600-609): the first record
entry whose key the Matcher maps onto `reqCol` provides the value. -/
def projectField (record : Rec) (reqCol : String) : Option String :=
  match record.find? (fun kv => match_column_name kv.1 [reqCol] = some reqCol) with
  | some kv => some kv.2
  | none => none

/-- One record projected onto the full canonical column set. -/
def projectRecord (record : Rec) : Row :=
  REQUIRED_COLUMNS.map (fun req => (req, projectField record req))

/-- `'|'.join(parts)`. -/
def joinSep (sep : String) : List String → String
  | [] => ""
  | [x] => x
  | x :: xs => x ++ sep ++ joinSep sep xs

/-- `create_key` (source lines 618-626): join the present members of
(Order Form, PO Date, Brand Name); otherwise the fallback
`f"ROW_{id(row)}"`.  Here `id(row)` is the CPython address of the row
Series object, and pandas `apply(axis=1)` reuses a single Series
object for every row, so `id(row)` is ONE fixed (run-dependent) number
shared by all rows of a run.  It is modelled by the parameter `rowId`,
which is the same for every row, and the deduplication theorems are
quantified over it. -/
def create_key (rowId : Nat) (row : Row) : String :=
  let parts := [rowGet row "Order Form", rowGet row "PO Date", rowGet row "Brand Name"].filterMap id
  if parts = [] then "ROW_" ++ Nat.repr rowId else joinSep "|" parts

/-- Pair every projected row with its index and duplicate key (the
shared `rowId` is the id of the one Series object pandas reuses). -/
def keyRowsAux (rowId : Nat) : Nat → List Row → List (String × Nat × Row)
  | _, [] => []
  | i, r :: rs => (create_key rowId r, i, r) :: keyRowsAux rowId (i + 1) rs

/-- `drop_duplicates(subset=['_duplicate_key'], keep='first')` (source
lines 628-631): keep an entry only when its key was not seen before. -/
def survivorsAux : List (String × Nat × Row) → List String → List (String × Nat × Row)
  | [], _ => []
  | e :: t, seen => if e.1 ∈ seen then survivorsAux t seen else e :: survivorsAux t (e.1 :: seen)

/-- All records of a year projected onto the canonical columns (source
lines 595-612). -/
def combineRows (records : List Rec) : List Row := records.map projectRecord

/-- The deduplicated table entries, with their original indices.  The
subsequent `sort_values` on the parsed `PO Date` (source lines 637-644)
permutes rows only — it changes neither the cells of any row nor the
column set — and is not modelled: `pd.to_datetime` and the default
(unstable) quicksort are pandas/numpy internals (see claim C8). -/
def survivors (rowId : Nat) (records : List Rec) : List (String × Nat × Row) :=
  survivorsAux (keyRowsAux rowId 0 (combineRows records)) []

/-- Indices (by input order) of the rows that survive deduplication. -/
def survivorIndices (rowId : Nat) (records : List Rec) : List Nat :=
  (survivors rowId records).map (fun e => e.2.1)

/-- The data rows of the output table (up to the final date sort). -/
def outputRows (rowId : Nat) (records : List Rec) : List Row :=
  (survivors rowId records).map (fun e => e.2.2)

/-- The header row written by `to_excel`: the data frame is built from
`result_data` with exactly `REQUIRED_COLUMNS` and finally reindexed as
`df_dedup[REQUIRED_COLUMNS]` (source lines 595-656). -/
def outputHeader : List String := REQUIRED_COLUMNS

/-! ### Processed-File Ledger -/

/-- Split on `'\n'` (text-mode line iteration; each Python "line" keeps
its `'\n'`, which the subsequent `strip()` removes, so splitting on the
separator is equivalent). -/
def splitNl : List Char → List (List Char)
  | [] => [[]]
  | c :: cs =>
    match splitNl cs with
    | [] => [[]]
    | p :: ps => if c = '\n' then [] :: p :: ps else (c :: p) :: ps

/-- `mark_file_as_processed` (source lines 482-494): append one line
`f"{file_name}\n"` to the year's tracking file. -/
def mark_file_as_processed (content fileName : String) : String :=
  content ++ fileName ++ "\n"

/-- `get_processed_files_from_tracking` (source lines 459-479): a
missing tracking file yields the empty set; otherwise the set
`{line.strip() for line in f if line.strip()}`.  The set is modelled by
the list of its (possibly repeated) members; only membership is used. -/
def get_processed_files_from_tracking (content : Option String) : List String :=
  match content with
  | none => []
  | some c => ((splitNl c.data).map (fun l => String.mk (pyStrip l))).filter (fun s => ¬ s = "")

/-! ### Support definitions used in theorem statements and proofs -/

/-- The last `some` produced by `q` over the index list (starting from
`init`): the value the header scan's overwriting assignments leave for a
field whose per-row candidate is `q`. -/
def lastHit (q : Nat → Option String) (l : List Nat) (init : Option String) : Option String :=
  l.foldl (fun acc i =>
    match q i with
    | some v => some v
    | none => acc) init

/-- No two adjacent characters of the list both satisfy `p`. -/
def noAdj (p : Char → Bool) : List Char → Bool
  | [] => true
  | [_] => true
  | a :: b :: t => (!(p a && p b)) && noAdj p (b :: t)

/-! ## Theorems -/



/-! Association-list (Python dict) lemmas -/

theorem recGet_recSet_self (r : Rec) (k v : String) : recGet (recSet r k v) k = some v := by
  induction r with
  | nil => simp [recSet, recGet]
  | cons hd t ih =>
    obtain ⟨k', v'⟩ := hd
    by_cases h : k' = k
    · simp [recSet, recGet, h]
    · simp [recSet, recGet, h, ih]

theorem recGet_recSet_ne (r : Rec) (k v k' : String) (h : ¬ k' = k) :
    recGet (recSet r k v) k' = recGet r k' := by
  induction r with
  | nil =>
    simp only [recSet, recGet]
    rw [if_neg (fun hh => h hh.symm)]
  | cons hd t ih =>
    obtain ⟨k0, v0⟩ := hd
    by_cases h0 : k0 = k
    · subst h0
      simp only [recSet, if_pos rfl, recGet]
      rw [if_neg (fun hh : k0 = k' => h (hh ▸ rfl)), if_neg (fun hh : k0 = k' => h (hh ▸ rfl))]
    · simp only [recSet, if_neg h0, recGet]
      by_cases h1 : k0 = k'
      · simp [h1]
      · simp [h1, ih]

theorem recGet_applyField_self (key : String) (q : Option String) (data : Rec) :
    recGet (applyField key q data) key =
      match q with
      | some v => some v
      | none => recGet data key := by
  cases q with
  | none => rfl
  | some v => simp [applyField, recGet_recSet_self]

theorem recGet_applyField_ne (key : String) (q : Option String) (data : Rec) (k : String)
    (h : ¬ k = key) :
    recGet (applyField key q data) k = recGet data k := by
  cases q with
  | none => rfl
  | some v => simp [applyField, recGet_recSet_ne _ _ _ _ h]


theorem recHas_false_get (data : Rec) (k : String) (h : recHas data k = false) :
    recGet data k = none := by
  unfold recHas at h
  cases hg : recGet data k with
  | none => rfl
  | some v => rw [hg] at h; simp at h

theorem recGet_recSet_unpopulated (data : Rec) (m w k v : String)
    (hhas : ¬ recHas data m = true) (h : recGet data k = some v) :
    recGet (recSet data m w) k = some v := by
  have hne : ¬ k = m := by
    intro hk
    subst hk
    rw [recHas, h] at hhas
    simp at hhas
  rw [recGet_recSet_ne _ _ _ _ hne]
  exact h

theorem titleRowStep_preserve (df : DF) (data : Rec) (i : Nat) (k v : String)
    (h : recGet data k = some v) : recGet (titleRowStep df data i) k = some v := by
  unfold titleRowStep
  dsimp only
  repeat' split
  all_goals first
    | exact h
    | exact recGet_recSet_unpopulated _ _ _ _ _ (by assumption) h

theorem titleScan_preserve (df : DF) (l : List Nat) (data : Rec) (k v : String)
    (h : recGet data k = some v) :
    recGet (l.foldl (titleRowStep df) data) k = some v := by
  induction l generalizing data with
  | nil => exact h
  | cons i t ih => exact ih _ (titleRowStep_preserve df data i k v h)


theorem fuzzyLoop_eq (sw : List String) (ts : List String) (best : Option String) (score : Nat) :
    fuzzyLoop sw ts best score =
      match ts.find? (fun t => setEqB sw (wordsOf (normalize_text t))) with
      | some t => Sum.inl t
      | none => Sum.inr (bestSubsetMatch sw ts best score) := by
  induction ts generalizing best score with
  | nil => simp [fuzzyLoop, bestSubsetMatch]
  | cons t ts ih =>
    simp only [fuzzyLoop, bestSubsetMatch, List.find?]
    cases heq : setEqB sw (wordsOf (normalize_text t)) with
    | true => rfl
    | false =>
      simp only [Bool.false_eq_true, if_false, Bool.and_true, Bool.not_false]
      cases hsub : subsetB sw (wordsOf (normalize_text t)) || subsetB (wordsOf (normalize_text t)) sw with
      | true =>
        by_cases hlt : score < interScore sw (wordsOf (normalize_text t))
        · simp only [if_pos hlt]; exact ih _ _
        · simp only [if_neg hlt]; exact ih _ _
      | false => exact ih _ _

/-- C2 (amended): for every nonempty source label, the Matcher agrees
with the spec priority pipeline — exact normalized equality first, then
first word-set equality, then the Alias Table, then the best
strict-subset candidate, else absent. -/
theorem c2_matcher_priority (s : String) (ts : List String) (h : ¬ s = "") :
    match_column_name s ts = matchSpec s ts := by
  unfold match_column_name matchSpec
  rw [if_neg h]
  simp only [fuzzyLoop_eq]
  cases hex : ts.find? (fun t => decide (normalize_text t = normalize_text s)) with
  | some t => rfl
  | none =>
    cases hws : ts.find? (fun t => setEqB (wordsOf (normalize_text s)) (wordsOf (normalize_text t))) with
    | some t => rfl
    | none =>
      cases lookupAlias (normalize_text s) with
      | some c => rfl
      | none => rfl

/-- C2 (counterexample): on the empty source label the Matcher
short-circuits to `none`, although an exact normalized-equality match
exists in the target set ("..." also normalizes to the empty string),
so the claimed priority order is violated for the empty label. -/
theorem c2_counterexample :
    match_column_name "" ["..."] = none ∧ matchSpec "" ["..."] = some "..." := by
  constructor
  · decide
  · decide

/-- C2 (witness): the amended theorem applied at a concrete label. -/
theorem c2_witness :
    ¬ "PO Date" = "" ∧ match_column_name "PO Date" REQUIRED_COLUMNS = matchSpec "PO Date" REQUIRED_COLUMNS :=
  ⟨by decide, c2_matcher_priority "PO Date" REQUIRED_COLUMNS (by decide)⟩

/-- C4: whenever the Extractor returns a record, at least one of Order
Form, Reference Format No, PO Reference is populated — a built record
with all three absent is discarded by the acceptance gate. -/
theorem c4_acceptance_gate (df : DF) (fileName sheetName : String) (d : Rec)
    (h : extract_data_from_sheet df fileName sheetName = some d) :
    recHas d "Order Form" = true ∨ recHas d "Reference Format No" = true
      ∨ recHas d "PO Reference" = true := by
  unfold extract_data_from_sheet at h
  dsimp only at h
  split at h
  · exact absurd h (by simp)
  · split at h
    · exact absurd h (by simp)
    · rename_i hgate
      cases h
      by_cases h1 : recHas (titleScan df (headerScan df [])) "Order Form" = true
      · exact Or.inl h1
      · by_cases h2 : recHas (titleScan df (headerScan df [])) "Reference Format No" = true
        · exact Or.inr (Or.inl h2)
        · by_cases h3 : recHas (titleScan df (headerScan df [])) "PO Reference" = true
          · exact Or.inr (Or.inr h3)
          · exact absurd ⟨h1, h2, h3⟩ hgate

/-- C4 (witness): a five-row sheet carrying only an `Order form number`
header line is accepted, and the gate disjunction holds for it. -/
theorem c4_witness :
    extract_data_from_sheet (DF.mk [[some "x"], [some "x"], [some "x"],
        [some "Order form number : OF1"], [some "x"]] 1) "f" "s"
      = some [("Order Form", "OF1")] ∧
    (recHas [("Order Form", "OF1")] "Order Form" = true
      ∨ recHas [("Order Form", "OF1")] "Reference Format No" = true
      ∨ recHas [("Order Form", "OF1")] "PO Reference" = true) :=
  ⟨by decide, c4_acceptance_gate (DF.mk [[some "x"], [some "x"], [some "x"],
        [some "Order form number : OF1"], [some "x"]] 1) "f" "s"
      [("Order Form", "OF1")] (by decide)⟩

/-- C7: in the title/value scan, first occurrence wins — a canonical
column already populated in the record is never overwritten by any
later row of the sheet. -/
theorem c7_first_occurrence_wins (df : DF) (data : Rec) (k v : String)
    (h : recGet data k = some v) :
    recGet (titleScan df data) k = some v :=
  titleScan_preserve df (titleRange df) data k v h

/-- C7 (witness): a sheet whose row 8 carries title `Brand Name` with
detail `Y` does not overwrite an already-populated `Brand Name = X`. -/
theorem c7_witness :
    recGet [("Brand Name", "X")] "Brand Name" = some "X" ∧
    recGet (titleScan (DF.mk [[none, none, none], [none, none, none], [none, none, none],
        [none, none, none], [none, none, none], [none, none, none],
        [none, none, none], [none, none, none],
        [none, some "Brand Name", some "Y"]] 3) [("Brand Name", "X")]) "Brand Name" = some "X" :=
  ⟨by decide, c7_first_occurrence_wins (DF.mk [[none, none, none], [none, none, none],
        [none, none, none], [none, none, none], [none, none, none], [none, none, none],
        [none, none, none], [none, none, none],
        [none, some "Brand Name", some "Y"]] 3) [("Brand Name", "X")] "Brand Name" "X" (by decide)⟩


theorem cell_ncols_zero (df : DF) (h : df.ncols = 0) (r c : Nat) : df.cell r c = none := by
  unfold DF.cell
  rw [h]
  simp

theorem qualRefFormat_ncols_zero (df : DF) (i : Nat) (h : df.ncols = 0) :
    qualRefFormat df i = none := by
  unfold qualRefFormat
  rw [cell_ncols_zero df h, if_neg (by decide)]

theorem qualOrderForm_ncols_zero (df : DF) (i : Nat) (h : df.ncols = 0) :
    qualOrderForm df i = none := by
  unfold qualOrderForm
  rw [cell_ncols_zero df h, if_neg (by decide)]

theorem qualOFDate_ncols_zero (df : DF) (i : Nat) (h : df.ncols = 0) :
    qualOFDate df i = none := by
  unfold qualOFDate
  rw [cell_ncols_zero df h, if_neg (by decide)]

theorem qualPODate_ncols_zero (df : DF) (i : Nat) (h : df.ncols = 0) :
    qualPODate df i = none := by
  unfold qualPODate
  rw [cell_ncols_zero df h, if_neg (by decide)]

theorem qualPORef_ncols_zero (df : DF) (i : Nat) (h : df.ncols = 0) :
    qualPORef df i = none := by
  unfold qualPORef
  rw [cell_ncols_zero df h, if_neg (by decide)]

theorem qualOrderType_ncols_zero (df : DF) (i : Nat) (h : df.ncols = 0) :
    qualOrderType df i = none := by
  unfold qualOrderType
  rw [cell_ncols_zero df h, if_neg (by decide)]

theorem qualContact_ncols_zero (df : DF) (i : Nat) (h : df.ncols = 0) :
    qualContact df i = none := by
  unfold qualContact
  rw [cell_ncols_zero df h, if_neg (by decide)]


theorem headerRowStep_get_refformat (df : DF) (data : Rec) (i : Nat) :
    recGet (headerRowStep df data i) "Reference Format No" =
      match qualRefFormat df i with
      | some v => some v
      | none => recGet data "Reference Format No" := by
  unfold headerRowStep
  by_cases hnc : df.ncols = 0
  · rw [if_pos hnc, qualRefFormat_ncols_zero df i hnc]
  · rw [if_neg hnc,
      recGet_applyField_ne _ _ _ _ (by decide), recGet_applyField_ne _ _ _ _ (by decide),
      recGet_applyField_ne _ _ _ _ (by decide), recGet_applyField_ne _ _ _ _ (by decide),
      recGet_applyField_ne _ _ _ _ (by decide), recGet_applyField_ne _ _ _ _ (by decide),
      recGet_applyField_self]

theorem headerRowStep_get_orderform (df : DF) (data : Rec) (i : Nat) :
    recGet (headerRowStep df data i) "Order Form" =
      match qualOrderForm df i with
      | some v => some v
      | none => recGet data "Order Form" := by
  unfold headerRowStep
  by_cases hnc : df.ncols = 0
  · rw [if_pos hnc, qualOrderForm_ncols_zero df i hnc]
  · rw [if_neg hnc,
      recGet_applyField_ne _ _ _ _ (by decide), recGet_applyField_ne _ _ _ _ (by decide),
      recGet_applyField_ne _ _ _ _ (by decide), recGet_applyField_ne _ _ _ _ (by decide),
      recGet_applyField_ne _ _ _ _ (by decide), recGet_applyField_self]
    cases qualOrderForm df i with
    | some v => rfl
    | none => rw [recGet_applyField_ne _ _ _ _ (by decide)]

theorem headerRowStep_get_ofdate (df : DF) (data : Rec) (i : Nat) :
    recGet (headerRowStep df data i) "O.F. Date" =
      match qualOFDate df i with
      | some v => some v
      | none => recGet data "O.F. Date" := by
  unfold headerRowStep
  by_cases hnc : df.ncols = 0
  · rw [if_pos hnc, qualOFDate_ncols_zero df i hnc]
  · rw [if_neg hnc,
      recGet_applyField_ne _ _ _ _ (by decide), recGet_applyField_ne _ _ _ _ (by decide),
      recGet_applyField_ne _ _ _ _ (by decide), recGet_applyField_ne _ _ _ _ (by decide),
      recGet_applyField_self]
    cases qualOFDate df i with
    | some v => rfl
    | none =>
      rw [recGet_applyField_ne _ _ _ _ (by decide), recGet_applyField_ne _ _ _ _ (by decide)]

theorem headerRowStep_get_podate (df : DF) (data : Rec) (i : Nat) :
    recGet (headerRowStep df data i) "PO Date" =
      match qualPODate df i with
      | some v => some v
      | none => recGet data "PO Date" := by
  unfold headerRowStep
  by_cases hnc : df.ncols = 0
  · rw [if_pos hnc, qualPODate_ncols_zero df i hnc]
  · rw [if_neg hnc,
      recGet_applyField_ne _ _ _ _ (by decide), recGet_applyField_ne _ _ _ _ (by decide),
      recGet_applyField_ne _ _ _ _ (by decide), recGet_applyField_self]
    cases qualPODate df i with
    | some v => rfl
    | none =>
      rw [recGet_applyField_ne _ _ _ _ (by decide), recGet_applyField_ne _ _ _ _ (by decide),
        recGet_applyField_ne _ _ _ _ (by decide)]

theorem headerRowStep_get_poref (df : DF) (data : Rec) (i : Nat) :
    recGet (headerRowStep df data i) "PO Reference" =
      match qualPORef df i with
      | some v => some v
      | none => recGet data "PO Reference" := by
  unfold headerRowStep
  by_cases hnc : df.ncols = 0
  · rw [if_pos hnc, qualPORef_ncols_zero df i hnc]
  · rw [if_neg hnc,
      recGet_applyField_ne _ _ _ _ (by decide), recGet_applyField_ne _ _ _ _ (by decide),
      recGet_applyField_self]
    cases qualPORef df i with
    | some v => rfl
    | none =>
      rw [recGet_applyField_ne _ _ _ _ (by decide), recGet_applyField_ne _ _ _ _ (by decide),
        recGet_applyField_ne _ _ _ _ (by decide), recGet_applyField_ne _ _ _ _ (by decide)]

theorem headerRowStep_get_ordertype (df : DF) (data : Rec) (i : Nat) :
    recGet (headerRowStep df data i) "Order Type" =
      match qualOrderType df i with
      | some v => some v
      | none => recGet data "Order Type" := by
  unfold headerRowStep
  by_cases hnc : df.ncols = 0
  · rw [if_pos hnc, qualOrderType_ncols_zero df i hnc]
  · rw [if_neg hnc, recGet_applyField_ne _ _ _ _ (by decide), recGet_applyField_self]
    cases qualOrderType df i with
    | some v => rfl
    | none =>
      rw [recGet_applyField_ne _ _ _ _ (by decide), recGet_applyField_ne _ _ _ _ (by decide),
        recGet_applyField_ne _ _ _ _ (by decide), recGet_applyField_ne _ _ _ _ (by decide),
        recGet_applyField_ne _ _ _ _ (by decide)]

theorem headerRowStep_get_contact (df : DF) (data : Rec) (i : Nat) :
    recGet (headerRowStep df data i) "Contact Person" =
      match qualContact df i with
      | some v => some v
      | none => recGet data "Contact Person" := by
  unfold headerRowStep
  by_cases hnc : df.ncols = 0
  · rw [if_pos hnc, qualContact_ncols_zero df i hnc]
  · rw [if_neg hnc, recGet_applyField_self]
    cases qualContact df i with
    | some v => rfl
    | none =>
      rw [recGet_applyField_ne _ _ _ _ (by decide), recGet_applyField_ne _ _ _ _ (by decide),
        recGet_applyField_ne _ _ _ _ (by decide), recGet_applyField_ne _ _ _ _ (by decide),
        recGet_applyField_ne _ _ _ _ (by decide), recGet_applyField_ne _ _ _ _ (by decide)]

theorem headerFold_get (df : DF) (key : String) (q : Nat → Option String)
    (hstep : ∀ data i, recGet (headerRowStep df data i) key =
      match q i with
      | some v => some v
      | none => recGet data key) :
    ∀ (l : List Nat) (data : Rec),
      recGet (l.foldl (headerRowStep df) data) key = lastHit q l (recGet data key) := by
  intro l
  induction l with
  | nil => intro data; rfl
  | cons i t ih =>
    intro data
    have : lastHit q (i :: t) (recGet data key) =
        lastHit q t (match q i with
          | some v => some v
          | none => recGet data key) := by
      unfold lastHit
      rw [List.foldl_cons]
    rw [this, List.foldl_cons, ih, hstep]


/-- C3 (amended): in the header metadata scan the LAST qualifying row
per field wins — for each of the seven structured header fields, the
stored value is the candidate extracted from the last row of the
scanned range whose keyword test and regex extraction both succeed;
later matching rows overwrite earlier ones. -/
theorem c3_header_last_match_wins (df : DF) :
    recGet (headerScan df []) "Reference Format No" = lastHit (qualRefFormat df) (headerRange df) none ∧
    recGet (headerScan df []) "Order Form" = lastHit (qualOrderForm df) (headerRange df) none ∧
    recGet (headerScan df []) "O.F. Date" = lastHit (qualOFDate df) (headerRange df) none ∧
    recGet (headerScan df []) "PO Date" = lastHit (qualPODate df) (headerRange df) none ∧
    recGet (headerScan df []) "PO Reference" = lastHit (qualPORef df) (headerRange df) none ∧
    recGet (headerScan df []) "Order Type" = lastHit (qualOrderType df) (headerRange df) none ∧
    recGet (headerScan df []) "Contact Person" = lastHit (qualContact df) (headerRange df) none :=
  ⟨headerFold_get df _ _ (fun data i => headerRowStep_get_refformat df data i) (headerRange df) [],
   headerFold_get df _ _ (fun data i => headerRowStep_get_orderform df data i) (headerRange df) [],
   headerFold_get df _ _ (fun data i => headerRowStep_get_ofdate df data i) (headerRange df) [],
   headerFold_get df _ _ (fun data i => headerRowStep_get_podate df data i) (headerRange df) [],
   headerFold_get df _ _ (fun data i => headerRowStep_get_poref df data i) (headerRange df) [],
   headerFold_get df _ _ (fun data i => headerRowStep_get_ordertype df data i) (headerRange df) [],
   headerFold_get df _ _ (fun data i => headerRowStep_get_contact df data i) (headerRange df) []⟩

/-- C3 (counterexample): rows 3 and 4 both carry a qualifying
`PO Date : ...` line with different values; the extracted record stores
the value of the LATER row (`2/2/2024`), not the earlier `1/1/2024`. -/
theorem c3_counterexample :
    (extract_data_from_sheet (DF.mk [[some "x"], [some "x"], [some "x"],
        [some "PO Date : 1/1/2024"], [some "PO Date : 2/2/2024"],
        [some "Order form number : OF1"]] 1) "f" "s").bind (fun d => recGet d "PO Date")
      = some "2/2/2024" ∧ ¬ "2/2/2024" = "1/1/2024" :=
  ⟨by decide, by decide⟩


theorem mem_survivorsAux {e : String × Nat × Row} :
    ∀ {l : List (String × Nat × Row)} {seen : List String},
      e ∈ survivorsAux l seen → e ∈ l ∧ ¬ e.1 ∈ seen := by
  intro l
  induction l with
  | nil => intro seen h; exact absurd h (by simp [survivorsAux])
  | cons g t ih =>
    intro seen h
    unfold survivorsAux at h
    split at h
    · obtain ⟨hm, hs⟩ := ih h
      exact ⟨List.mem_cons_of_mem _ hm, hs⟩
    · rename_i hgs
      rcases List.mem_cons.mp h with heq | hm
      · exact ⟨heq ▸ List.mem_cons_self _ _, heq ▸ hgs⟩
      · obtain ⟨hm', hs⟩ := ih hm
        refine ⟨List.mem_cons_of_mem _ hm', fun hc => hs ?_⟩
        exact List.mem_cons_of_mem _ hc

theorem keyRowsAux_entry {e : String × Nat × Row} (rowId : Nat) :
    ∀ {n : Nat} {rows : List Row}, e ∈ keyRowsAux rowId n rows →
      ∃ k r, rows.get? k = some r ∧ e = (create_key rowId r, n + k, r) := by
  intro n rows
  induction rows generalizing n with
  | nil => intro h; exact absurd h (by simp [keyRowsAux])
  | cons r rs ih =>
    intro h
    rcases List.mem_cons.mp h with heq | hm
    · exact ⟨0, r, rfl, by simpa using heq⟩
    · obtain ⟨k, r', hget, hval⟩ := ih hm
      exact ⟨k + 1, r', by simpa using hget, by
        rw [hval]
        have : n + 1 + k = n + (k + 1) := by omega
        rw [this]⟩


theorem survivorsAux_drops_later {e : String × Nat × Row} :
    ∀ (l1 : List (String × Nat × Row)) {l2 seen} (f : String × Nat × Row),
      f ∈ l1 → f.1 = e.1 → ¬ e ∈ l1 → ¬ e ∈ survivorsAux (l1 ++ e :: l2) seen := by
  intro l1
  induction l1 with
  | nil => intro l2 seen f hf _ _ _; exact absurd hf (by simp)
  | cons g t ih =>
    intro l2 seen f hf hkey hne hmem
    rw [List.cons_append] at hmem
    unfold survivorsAux at hmem
    have hnet : ¬ e ∈ t := fun hc => hne (List.mem_cons_of_mem _ hc)
    split at hmem
    · rename_i hgseen
      rcases List.mem_cons.mp hf with hfg | hft
      · have := (mem_survivorsAux hmem).2
        exact this (hkey ▸ hfg ▸ hgseen)
      · exact ih f hft hkey hnet hmem
    · rename_i hgseen
      rcases List.mem_cons.mp hmem with hem | hm
      · exact hne (hem ▸ List.mem_cons_self _ _)
      · rcases List.mem_cons.mp hf with hfg | hft
        · have := (mem_survivorsAux hm).2
          exact this (by rw [← hkey, hfg]; exact List.mem_cons_self _ _)
        · exact ih f hft hkey hnet hm

theorem survivorsAux_keeps_first {e : String × Nat × Row} :
    ∀ (l1 : List (String × Nat × Row)) {l2 seen},
      ¬ e.1 ∈ seen → (∀ f ∈ l1, ¬ f.1 = e.1) → e ∈ survivorsAux (l1 ++ e :: l2) seen := by
  intro l1
  induction l1 with
  | nil =>
    intro l2 seen hseen _
    rw [List.nil_append]
    unfold survivorsAux
    rw [if_neg hseen]
    exact List.mem_cons_self _ _
  | cons g t ih =>
    intro l2 seen hseen hkeys
    rw [List.cons_append]
    unfold survivorsAux
    split
    · exact ih hseen (fun f hf => hkeys f (List.mem_cons_of_mem _ hf))
    · refine List.mem_cons_of_mem _ (ih ?_ (fun f hf => hkeys f (List.mem_cons_of_mem _ hf)))
      intro hc
      rcases List.mem_cons.mp hc with h1 | h2
      · exact hkeys g (List.mem_cons_self _ _) h1.symm
      · exact hseen h2


theorem keyRowsAux_split (rowId : Nat) :
    ∀ (j : Nat) (rows : List Row) (n : Nat) (r : Row), rows.get? j = some r →
      ∃ l1 l2, keyRowsAux rowId n rows = l1 ++ (create_key rowId r, n + j, r) :: l2 ∧
        (∀ f ∈ l1, ∃ k rk, k < j ∧ rows.get? k = some rk ∧ f = (create_key rowId rk, n + k, rk)) ∧
        (∀ k rk, k < j → rows.get? k = some rk → (create_key rowId rk, n + k, rk) ∈ l1) := by
  intro j
  induction j with
  | zero =>
    intro rows n r hget
    cases rows with
    | nil => simp at hget
    | cons r0 rest =>
      have h0 : r0 = r := by simpa using hget
      subst h0
      refine ⟨[], keyRowsAux rowId (n + 1) rest, by simp [keyRowsAux], by simp, ?_⟩
      intro k rk hk
      exact absurd hk (Nat.not_lt_zero k)
  | succ j ih =>
    intro rows n r hget
    cases rows with
    | nil => simp at hget
    | cons r0 rest =>
      have hget' : rest.get? j = some r := by simpa using hget
      obtain ⟨l1, l2, heq, hchar, hcov⟩ := ih rest (n + 1) r hget'
      have harith : n + 1 + j = n + (j + 1) := by omega
      refine ⟨(create_key rowId r0, n, r0) :: l1, l2, ?_, ?_, ?_⟩
      · show (create_key rowId r0, n, r0) :: keyRowsAux rowId (n + 1) rest = _
        rw [heq, harith, List.cons_append]
      · intro f hf
        rcases List.mem_cons.mp hf with hfh | hft
        · exact ⟨0, r0, Nat.succ_pos j, by simp, by simpa using hfh⟩
        · obtain ⟨k, rk, hk, hg, hv⟩ := hchar f hft
          refine ⟨k + 1, rk, by omega, by simpa using hg, ?_⟩
          rw [hv]
          have : n + 1 + k = n + (k + 1) := by omega
          rw [this]
      · intro k rk hk hg
        cases k with
        | zero =>
          have : r0 = rk := by simpa using hg
          subst this
          exact List.mem_cons_self _ _
        | succ k' =>
          have hg' : rest.get? k' = some rk := by simpa using hg
          have : n + (k' + 1) = n + 1 + k' := by omega
          rw [this]
          exact List.mem_cons_of_mem _ (hcov k' rk (by omega) hg')


theorem create_key_all_present (rowId : Nat) (row : Row) (a d b : String)
    (h1 : rowGet row "Order Form" = some a) (h3 : rowGet row "PO Date" = some d)
    (h5 : rowGet row "Brand Name" = some b) :
    create_key rowId row = joinSep "|" [a, d, b] := by
  unfold create_key
  rw [h1, h3, h5]
  dsimp only [List.filterMap, id]
  rw [if_neg (by simp)]

theorem combineRows_get (records : List Rec) (k : Nat) (rk : Rec)
    (h : records.get? k = some rk) :
    (combineRows records).get? k = some (projectRecord rk) := by
  unfold combineRows
  rw [List.get?_map, h]
  rfl

theorem combineRows_get_inv (records : List Rec) (k : Nat) (row : Row)
    (h : (combineRows records).get? k = some row) :
    ∃ rk, records.get? k = some rk ∧ row = projectRecord rk := by
  unfold combineRows at h
  rw [List.get?_map] at h
  cases hg : records.get? k with
  | none => rw [hg] at h; simp at h
  | some rk =>
    rw [hg] at h
    exact ⟨rk, rfl, by simpa using h.symm⟩

/-- A row whose duplicate key differs from every earlier row's key
survives deduplication (general `keep='first'` survival lemma, for any
shared row id). -/
theorem survives_of_no_earlier_key (rowId : Nat) (records : List Rec) (i : Nat) (ri : Rec)
    (hi : records.get? i = some ri)
    (hfirst : ∀ k rk, k < i → records.get? k = some rk →
      ¬ create_key rowId (projectRecord rk) = create_key rowId (projectRecord ri)) :
    i ∈ survivorIndices rowId records := by
  have hgeti := combineRows_get records i ri hi
  obtain ⟨l1, l2, heq, hchar, _⟩ :=
    keyRowsAux_split rowId i (combineRows records) 0 (projectRecord ri) hgeti
  have hcenter : (create_key rowId (projectRecord ri), 0 + i, projectRecord ri)
      ∈ survivorsAux (keyRowsAux rowId 0 (combineRows records)) [] := by
    rw [heq]
    refine survivorsAux_keeps_first l1 (by simp) ?_
    intro f hf
    obtain ⟨k, rk, hk, hg, hv⟩ := hchar f hf
    obtain ⟨reck, hgr, hpr⟩ := combineRows_get_inv records k rk hg
    rw [hv, hpr]
    simpa using hfirst k reck (by omega) hgr
  refine List.mem_map.mpr ⟨_, hcenter, ?_⟩
  simp

/-- A row whose duplicate key already occurred at an earlier row is
removed by deduplication (general `keep='first'` removal lemma, for any
shared row id). -/
theorem dropped_of_earlier_same_key (rowId : Nat) (records : List Rec) (i j : Nat) (ri rj : Rec)
    (hi : records.get? i = some ri) (hj : records.get? j = some rj) (hij : i < j)
    (hkeyij : create_key rowId (projectRecord rj) = create_key rowId (projectRecord ri)) :
    ¬ j ∈ survivorIndices rowId records := by
  have hgeti := combineRows_get records i ri hi
  have hgetj := combineRows_get records j rj hj
  intro hmem
  obtain ⟨e, hes, hej⟩ := List.mem_map.mp hmem
  have hek := (mem_survivorsAux hes).1
  obtain ⟨k, rk, hgk, hv⟩ := keyRowsAux_entry rowId hek
  have hkj : k = j := by rw [hv] at hej; simpa using hej
  subst hkj
  obtain ⟨reck, hgr, hpr⟩ := combineRows_get_inv records k rk hgk
  have hrk : rk = projectRecord rj := by
    rw [hgr] at hj; cases hj; exact hpr
  subst hrk
  rw [Nat.zero_add] at hv
  subst hv
  obtain ⟨l1, l2, heq, hchar, hcov⟩ :=
    keyRowsAux_split rowId k (combineRows records) 0 (projectRecord rj) hgetj
  rw [Nat.zero_add] at heq
  have hfmem := hcov i (projectRecord ri) hij hgeti
  have hnotin : ¬ (create_key rowId (projectRecord rj), k, projectRecord rj) ∈ l1 := by
    intro hin
    obtain ⟨k2, rk2, hk2, _, hv2⟩ := hchar _ hin
    have : k = 0 + k2 := congrArg (fun x => x.2.1) hv2
    omega
  have hfkey : (create_key rowId (projectRecord ri), 0 + i, projectRecord ri).1
      = (create_key rowId (projectRecord rj), k, projectRecord rj).1 := by
    simpa using hkeyij.symm
  unfold survivors at hes
  rw [heq] at hes
  exact survivorsAux_drops_later l1 _ hfmem hfkey hnotin hes

/-- C5: two records of a year whose projected (Order Form, PO Date,
Brand Name) are all present and pairwise equal collapse under
deduplication — if `i` is the first occurrence of its duplicate key then
row `i` survives and the later row `j` is removed, whatever the other
fields contain; this holds for every value of the shared row id. -/
theorem c5_dedup_first_wins (rowId : Nat) (records : List Rec) (i j : Nat) (ri rj : Rec)
    (hi : records.get? i = some ri) (hj : records.get? j = some rj) (hij : i < j)
    (hfirst : ∀ k rk, k < i → records.get? k = some rk →
      ¬ create_key rowId (projectRecord rk) = create_key rowId (projectRecord ri))
    (a d b : String)
    (h1 : rowGet (projectRecord ri) "Order Form" = some a)
    (h2 : rowGet (projectRecord rj) "Order Form" = some a)
    (h3 : rowGet (projectRecord ri) "PO Date" = some d)
    (h4 : rowGet (projectRecord rj) "PO Date" = some d)
    (h5 : rowGet (projectRecord ri) "Brand Name" = some b)
    (h6 : rowGet (projectRecord rj) "Brand Name" = some b) :
    i ∈ survivorIndices rowId records ∧ ¬ j ∈ survivorIndices rowId records := by
  have hkeyij : create_key rowId (projectRecord rj) = create_key rowId (projectRecord ri) := by
    rw [create_key_all_present rowId _ a d b h2 h4 h6,
      create_key_all_present rowId _ a d b h1 h3 h5]
  exact ⟨survives_of_no_earlier_key rowId records i ri hi hfirst,
    dropped_of_earlier_same_key rowId records i j ri rj hi hj hij hkeyij⟩

/-- C5 (witness): two concrete records agreeing on the three key fields
and differing in `Remark`: the first survives, the second is removed. -/
theorem c5_witness :
    0 ∈ survivorIndices 0 [[("Order Form", "A"), ("PO Date", "D"), ("Brand Name", "B"), ("Remark", "x")],
        [("Order Form", "A"), ("PO Date", "D"), ("Brand Name", "B"), ("Remark", "y")]] ∧
    ¬ 1 ∈ survivorIndices 0 [[("Order Form", "A"), ("PO Date", "D"), ("Brand Name", "B"), ("Remark", "x")],
        [("Order Form", "A"), ("PO Date", "D"), ("Brand Name", "B"), ("Remark", "y")]] :=
  c5_dedup_first_wins 0
    [[("Order Form", "A"), ("PO Date", "D"), ("Brand Name", "B"), ("Remark", "x")],
     [("Order Form", "A"), ("PO Date", "D"), ("Brand Name", "B"), ("Remark", "y")]]
    0 1
    [("Order Form", "A"), ("PO Date", "D"), ("Brand Name", "B"), ("Remark", "x")]
    [("Order Form", "A"), ("PO Date", "D"), ("Brand Name", "B"), ("Remark", "y")]
    (by decide) (by decide) (by decide)
    (fun k rk hk _ => absurd hk (Nat.not_lt_zero k))
    "A" "D" "B"
    (by decide) (by decide) (by decide) (by decide) (by decide) (by decide)


/-- C10 (amended): the duplicate key joins exactly the present members
of (Order Form, PO Date, Brand Name), so mixed-presence records can
collide (the concrete pair below shares key `A|B` for every shared row
id, and only the first survives).  A record with none of the three
present receives the fallback key `ROW_<id(row)>`; pandas reuses one
row Series for the whole run, so that id is the SAME for every row:
all all-absent records of a run share one fallback key, a later
all-absent record is always removed as a duplicate of an earlier one,
and an all-absent record survives exactly when no earlier row's key
equals the shared fallback string. -/
theorem c10_fallback_key :
    (∀ rid : Nat,
      0 ∈ survivorIndices rid [[("Order Form", "A"), ("Brand Name", "B")],
        [("Order Form", "A"), ("PO Date", "B")]] ∧
      ¬ 1 ∈ survivorIndices rid [[("Order Form", "A"), ("Brand Name", "B")],
        [("Order Form", "A"), ("PO Date", "B")]]) ∧
    (∀ (rid : Nat) (records : List Rec) (i j : Nat) (ri rj : Rec),
      records.get? i = some ri → records.get? j = some rj → i < j →
      rowGet (projectRecord ri) "Order Form" = none →
      rowGet (projectRecord ri) "PO Date" = none →
      rowGet (projectRecord ri) "Brand Name" = none →
      rowGet (projectRecord rj) "Order Form" = none →
      rowGet (projectRecord rj) "PO Date" = none →
      rowGet (projectRecord rj) "Brand Name" = none →
      ¬ j ∈ survivorIndices rid records) ∧
    (∀ (rid : Nat) (records : List Rec) (j : Nat) (rj : Rec), records.get? j = some rj →
      rowGet (projectRecord rj) "Order Form" = none →
      rowGet (projectRecord rj) "PO Date" = none →
      rowGet (projectRecord rj) "Brand Name" = none →
      (∀ k rk, k < j → records.get? k = some rk →
        ¬ create_key rid (projectRecord rk) = "ROW_" ++ Nat.repr rid) →
      j ∈ survivorIndices rid records) := by
  refine ⟨?_, ?_, ?_⟩
  · intro rid
    have hk1 : create_key rid (projectRecord [("Order Form", "A"), ("Brand Name", "B")])
        = "A|B" := by
      unfold create_key
      rw [show rowGet (projectRecord [("Order Form", "A"), ("Brand Name", "B")]) "Order Form"
            = some "A" from by decide,
        show rowGet (projectRecord [("Order Form", "A"), ("Brand Name", "B")]) "PO Date"
            = none from by decide,
        show rowGet (projectRecord [("Order Form", "A"), ("Brand Name", "B")]) "Brand Name"
            = some "B" from by decide]
      rfl
    have hk2 : create_key rid (projectRecord [("Order Form", "A"), ("PO Date", "B")])
        = "A|B" := by
      unfold create_key
      rw [show rowGet (projectRecord [("Order Form", "A"), ("PO Date", "B")]) "Order Form"
            = some "A" from by decide,
        show rowGet (projectRecord [("Order Form", "A"), ("PO Date", "B")]) "PO Date"
            = some "B" from by decide,
        show rowGet (projectRecord [("Order Form", "A"), ("PO Date", "B")]) "Brand Name"
            = none from by decide]
      rfl
    constructor
    · refine survives_of_no_earlier_key rid _ 0 [("Order Form", "A"), ("Brand Name", "B")]
        (by decide) ?_
      intro k rk hk
      exact absurd hk (Nat.not_lt_zero k)
    · exact dropped_of_earlier_same_key rid _ 0 1
        [("Order Form", "A"), ("Brand Name", "B")] [("Order Form", "A"), ("PO Date", "B")]
        (by decide) (by decide) (by decide) (hk2.trans hk1.symm)
  · intro rid records i j ri rj hi hj hij hi1 hi2 hi3 hj1 hj2 hj3
    have hki : create_key rid (projectRecord ri) = "ROW_" ++ Nat.repr rid := by
      unfold create_key
      rw [hi1, hi2, hi3]
      rfl
    have hkj : create_key rid (projectRecord rj) = "ROW_" ++ Nat.repr rid := by
      unfold create_key
      rw [hj1, hj2, hj3]
      rfl
    exact dropped_of_earlier_same_key rid records i j ri rj hi hj hij (hkj.trans hki.symm)
  · intro rid records j rj hj h1 h2 h3 hne
    have hkj : create_key rid (projectRecord rj) = "ROW_" ++ Nat.repr rid := by
      unfold create_key
      rw [h1, h2, h3]
      rfl
    refine survives_of_no_earlier_key rid records j rj hj ?_
    intro k rk hk hg
    rw [hkj]
    exact hne k rk hk hg

/-- C10 (counterexample): two records with none of the three key fields
present receive the SAME fallback key — `id(row)` is the address of the
one row Series pandas reuses, so it is one shared number — and the
later record IS removed as a duplicate of the first.  The outcome is
independent of the shared id's value (shown at two different values);
both the claimed per-row uniqueness of the fallback key and the
never-removed guarantee fail. -/
theorem c10_counterexample :
    create_key 0 (projectRecord [("Generic Name", "G")])
      = create_key 0 (projectRecord [("Remark", "x")]) ∧
    rowGet (projectRecord [("Remark", "x")]) "Order Form" = none ∧
    rowGet (projectRecord [("Remark", "x")]) "PO Date" = none ∧
    rowGet (projectRecord [("Remark", "x")]) "Brand Name" = none ∧
    survivorIndices 0 [[("Generic Name", "G")], [("Remark", "x")]] = [0] ∧
    ¬ 1 ∈ survivorIndices 0 [[("Generic Name", "G")], [("Remark", "x")]] ∧
    survivorIndices 314159 [[("Generic Name", "G")], [("Remark", "x")]] = [0] :=
  ⟨by decide, by decide, by decide, by decide, by decide, by decide, by decide⟩

/-- C10 (witness): the amended statements applied to concrete pairs —
the second all-absent record is removed as a duplicate of the first,
and an all-absent record next to an ordinary record survives. -/
theorem c10_witness :
    ¬ 1 ∈ survivorIndices 7 [[("Generic Name", "G")], [("Remark", "x")]] ∧
    1 ∈ survivorIndices 0 [[("Order Form", "A")], [("Generic Name", "G")]] :=
  ⟨c10_fallback_key.2.1 7 [[("Generic Name", "G")], [("Remark", "x")]] 0 1
     [("Generic Name", "G")] [("Remark", "x")]
     (by decide) (by decide) (by decide)
     (by decide) (by decide) (by decide) (by decide) (by decide) (by decide),
   c10_fallback_key.2.2 0 [[("Order Form", "A")], [("Generic Name", "G")]] 1 [("Generic Name", "G")]
     (by decide) (by decide) (by decide) (by decide)
     (by
       intro k rk hk hg
       have hk0 : k = 0 := by omega
       subst hk0
       have hrk : [("Order Form", "A")] = rk := by simpa using hg
       subst hrk
       decide)⟩


theorem projectRecord_keys (rec : Rec) :
    (projectRecord rec).map Prod.fst = REQUIRED_COLUMNS := by
  unfold projectRecord
  rw [List.map_map]
  simp [Function.comp_def]

theorem rowGet_map_none (cols : List String) (f : String → Option String) (k : String)
    (hf : f k = none) : rowGet (cols.map (fun c => (c, f c))) k = none := by
  induction cols with
  | nil => rfl
  | cons c t ih =>
    show rowGet ((c, f c) :: t.map _) k = none
    unfold rowGet
    by_cases h : c = k
    · rw [if_pos h, h, hf]
    · rw [if_neg h]
      exact ih

/-- C1 (amended): the written table's header is exactly the canonical
column list — 86 columns, not 85 — every data row carries exactly those
keys in that order, and a record contributing nothing to a column
yields an empty cell there. -/
theorem c1_canonical_columns (rowId : Nat) (records : List Rec) :
    outputHeader = REQUIRED_COLUMNS ∧
    outputHeader.length = 86 ∧
    (∀ row ∈ outputRows rowId records, row.map Prod.fst = REQUIRED_COLUMNS) ∧
    (∀ (record : Rec) (req : String),
      (∀ kv ∈ record, ¬ match_column_name kv.1 [req] = some req) →
      rowGet (projectRecord record) req = none) := by
  refine ⟨rfl, by decide, ?_, ?_⟩
  · intro row hrow
    obtain ⟨e, hes, hval⟩ := List.mem_map.mp hrow
    have hek := (mem_survivorsAux hes).1
    obtain ⟨k, r, hg, hv⟩ := keyRowsAux_entry rowId hek
    obtain ⟨rec, hgr, hpr⟩ := combineRows_get_inv records k r hg
    rw [← hval, hv]
    show r.map Prod.fst = _
    rw [hpr]
    exact projectRecord_keys rec
  · intro record req hnone
    have hpf : projectField record req = none := by
      unfold projectField
      rw [List.find?_eq_none.mpr]
      intro kv hkv
      simpa using hnone kv hkv
    unfold projectRecord
    exact rowGet_map_none REQUIRED_COLUMNS _ req hpf

/-- C1 (counterexample): the canonical column list has 86 entries, not
the 85 the claim states. -/
theorem c1_counterexample : outputHeader.length = 86 ∧ ¬ outputHeader.length = 85 :=
  ⟨by decide, by decide⟩

/-- C1 (witness): the amended theorem applied to a one-record year and
to a record populating no canonical column. -/
theorem c1_witness :
    projectRecord [] ∈ outputRows 0 [[]] ∧
    (projectRecord []).map Prod.fst = REQUIRED_COLUMNS ∧
    (∀ kv ∈ ([("Remark", "x")] : Rec), ¬ match_column_name kv.1 ["PO Date"] = some "PO Date") ∧
    rowGet (projectRecord [("Remark", "x")]) "PO Date" = none :=
  ⟨by decide,
   (c1_canonical_columns 0 [[]]).2.2.1 (projectRecord []) (by decide),
   by decide,
   (c1_canonical_columns 0 []).2.2.2 [("Remark", "x")] "PO Date" (by decide)⟩


theorem splitNl_eq (l : List Char) :
    splitNl l =
      match l with
      | [] => [[]]
      | c :: cs =>
        match splitNl cs with
        | [] => [[]]
        | p :: ps => if c = '\n' then [] :: p :: ps else (c :: p) :: ps := by
  cases l <;> rfl

theorem splitNl_ne_nil (l : List Char) : ¬ splitNl l = [] := by
  cases l with
  | nil => simp [splitNl]
  | cons c cs =>
    rw [splitNl_eq]
    dsimp only
    cases hs : splitNl cs with
    | nil => simp
    | cons p ps =>
      by_cases h : c = '\n'
      · simp [h]
      · simp [h]

theorem splitNl_append_line (f rest : List Char) (hf : ¬ '\n' ∈ f) :
    splitNl (f ++ '\n' :: rest) = f :: splitNl rest := by
  induction f with
  | nil =>
    rw [List.nil_append, splitNl_eq]
    dsimp only
    cases hs : splitNl rest with
    | nil => exact absurd hs (splitNl_ne_nil rest)
    | cons p ps => simp
  | cons c cs ih =>
    have hc : ¬ c = '\n' := fun h => hf (h ▸ List.mem_cons_self _ _)
    have hcs : ¬ '\n' ∈ cs := fun h => hf (List.mem_cons_of_mem _ h)
    rw [List.cons_append, splitNl_eq]
    dsimp only
    rw [ih hcs]
    simp [hc]

theorem splitNl_append_pre (q rest : List Char) :
    ∃ pre, ¬ pre = [] ∧ splitNl (q ++ '\n' :: rest) = pre ++ splitNl rest := by
  induction q with
  | nil =>
    refine ⟨[[]], by simp, ?_⟩
    rw [List.nil_append, splitNl_eq]
    dsimp only
    cases hs : splitNl rest with
    | nil => exact absurd hs (splitNl_ne_nil rest)
    | cons p ps => simp
  | cons c cs ih =>
    obtain ⟨pre, hpre, heq⟩ := ih
    cases pre with
    | nil => exact absurd rfl hpre
    | cons x pre2 =>
      by_cases hc : c = '\n'
      · refine ⟨[] :: x :: pre2, by simp, ?_⟩
        rw [List.cons_append, splitNl_eq]
        dsimp only
        rw [heq]
        simp [hc]
      · refine ⟨(c :: x) :: pre2, by simp, ?_⟩
        rw [List.cons_append, splitNl_eq]
        dsimp only
        rw [heq]
        simp [hc]

theorem mem_splitNl_of_marked (content f : List Char)
    (hwf : content = [] ∨ content.getLast? = some '\n') (hf : ¬ '\n' ∈ f) :
    f ∈ splitNl (content ++ f ++ '\n' :: []) := by
  rcases hwf with hnil | hlast
  · subst hnil
    rw [List.nil_append, splitNl_append_line f [] hf]
    exact List.mem_cons_self _ _
  · have hq : content.dropLast ++ ['\n'] = content :=
      List.dropLast_append_getLast? _ hlast
    rw [← hq, List.append_assoc, List.append_assoc]
    obtain ⟨pre, _, heq⟩ := splitNl_append_pre content.dropLast (f ++ '\n' :: [])
    rw [show ['\n'] ++ (f ++ '\n' :: []) = '\n' :: (f ++ '\n' :: []) from rfl, heq,
      splitNl_append_line f [] hf]
    exact List.mem_append_right _ (List.mem_cons_self _ _)

/-- C9 (amended): for every ledger content that is empty or
newline-terminated (the invariant every `markProcessed` preserves) and
every file name that is nonempty, newline-free and strip-invariant,
marking and then loading yields a set containing the file name. -/
theorem c9_ledger_roundtrip (content f : String)
    (hwf : content.data = [] ∨ content.data.getLast? = some '\n')
    (hstrip : pyStrip f.data = f.data) (hne : ¬ f = "") (hnl : ¬ '\n' ∈ f.data) :
    f ∈ get_processed_files_from_tracking (some (mark_file_as_processed content f)) := by
  unfold get_processed_files_from_tracking mark_file_as_processed
  dsimp only
  have hdata : (content ++ f ++ "\n").data = content.data ++ f.data ++ '\n' :: [] := by
    simp
  rw [hdata]
  refine List.mem_filter.mpr ⟨?_, by simpa using hne⟩
  refine List.mem_map.mpr ⟨f.data, mem_splitNl_of_marked content.data f.data hwf hnl, ?_⟩
  rw [hstrip]

/-- C9 (counterexample): a file name carrying a leading space is
recorded, but loading strips each line, so the round-trip set does not
contain the original name (it contains the stripped form instead). -/
theorem c9_counterexample :
    get_processed_files_from_tracking (some (mark_file_as_processed "" " f.xlsx")) = ["f.xlsx"] ∧
    ¬ " f.xlsx" ∈ get_processed_files_from_tracking (some (mark_file_as_processed "" " f.xlsx")) :=
  ⟨by decide, by decide⟩

/-- C9 (witness): the round-trip at a concrete well-formed name. -/
theorem c9_witness :
    "f.xlsx" ∈ get_processed_files_from_tracking (some (mark_file_as_processed "" "f.xlsx")) :=
  c9_ledger_roundtrip "" "f.xlsx" (Or.inl rfl) (by decide) (by decide) (by decide)


theorem toNat_ofNat_valid (n : Nat) (h : n.isValidChar) : (Char.ofNat n).toNat = n := by
  rw [Char.ofNat, dif_pos h]
  rfl

theorem pyLower_toNat (c : Char) (h : 65 ≤ c.toNat ∧ c.toNat ≤ 90) :
    (pyLower c).toNat = c.toNat + 32 := by
  unfold pyLower
  rw [if_pos h]
  exact toNat_ofNat_valid _ (Or.inl (by omega))

theorem pyLower_eq_self (c : Char) (h : ¬ (65 ≤ c.toNat ∧ c.toNat ≤ 90)) : pyLower c = c := by
  unfold pyLower
  rw [if_neg h]

theorem pyLower_idem (c : Char) : pyLower (pyLower c) = pyLower c := by
  by_cases h : 65 ≤ c.toNat ∧ c.toNat ≤ 90
  · have hv := pyLower_toNat c h
    exact pyLower_eq_self (pyLower c) (by omega)
  · rw [pyLower_eq_self c h]
    exact pyLower_eq_self c h

theorem mem_collapseRuns {c : Char} (p : Char → Bool) :
    ∀ (l : List Char) (b : Bool), c ∈ collapseRuns p l b → c = ' ' ∨ (c ∈ l ∧ p c = false) := by
  intro l
  induction l with
  | nil => intro b h; exact absurd h (by simp [collapseRuns])
  | cons d t ih =>
    intro b h
    unfold collapseRuns at h
    cases hd : p d with
    | true =>
      rw [hd] at h
      cases b with
      | true =>
        rw [if_pos rfl, if_pos rfl] at h
        rcases ih true h with h1 | ⟨h2, h3⟩
        · exact Or.inl h1
        · exact Or.inr ⟨List.mem_cons_of_mem _ h2, h3⟩
      | false =>
        rw [if_pos rfl, if_neg (by simp)] at h
        rcases List.mem_cons.mp h with h1 | h1
        · exact Or.inl h1
        · rcases ih true h1 with h2 | ⟨h2, h3⟩
          · exact Or.inl h2
          · exact Or.inr ⟨List.mem_cons_of_mem _ h2, h3⟩
    | false =>
      rw [hd, if_neg (by simp)] at h
      rcases List.mem_cons.mp h with h1 | h1
      · exact Or.inr ⟨h1 ▸ List.mem_cons_self _ _, h1 ▸ hd⟩
      · rcases ih false h1 with h2 | ⟨h2, h3⟩
        · exact Or.inl h2
        · exact Or.inr ⟨List.mem_cons_of_mem _ h2, h3⟩

theorem mem_stripEnd {c : Char} : ∀ {l : List Char}, c ∈ stripEnd l → c ∈ l := by
  intro l
  induction l with
  | nil => intro h; exact absurd h (by simp [stripEnd])
  | cons d t ih =>
    intro h
    unfold stripEnd at h
    cases hs : stripEnd t with
    | nil =>
      rw [hs] at h
      by_cases hsp : isPySpace d
      · rw [if_pos hsp] at h
        exact absurd h (by simp)
      · rw [if_neg hsp] at h
        rcases List.mem_cons.mp h with h1 | h1
        · exact h1 ▸ List.mem_cons_self _ _
        · exact absurd h1 (by simp)
    | cons e es =>
      rw [hs] at h
      rcases List.mem_cons.mp h with h1 | h1
      · exact h1 ▸ List.mem_cons_self _ _
      · exact List.mem_cons_of_mem _ (ih (hs ▸ h1))

theorem mem_dropWhile {c : Char} (p : Char → Bool) :
    ∀ {l : List Char}, c ∈ l.dropWhile p → c ∈ l := by
  intro l
  induction l with
  | nil => intro h; exact absurd h (by simp)
  | cons d t ih =>
    intro h
    rw [List.dropWhile_cons] at h
    split at h
    · exact List.mem_cons_of_mem _ (ih h)
    · exact h

theorem mem_pyStrip {c : Char} {l : List Char} (h : c ∈ pyStrip l) : c ∈ l :=
  mem_dropWhile isPySpace (mem_stripEnd h)


theorem noAdj_nil (p : Char → Bool) : noAdj p [] = true := rfl

theorem noAdj_cons_cons (p : Char → Bool) (a b : Char) (t : List Char) :
    noAdj p (a :: b :: t) = ((!(p a && p b)) && noAdj p (b :: t)) := rfl

theorem noAdj_tail (p : Char → Bool) (a : Char) (l : List Char) (h : noAdj p (a :: l) = true) :
    noAdj p l = true := by
  cases l with
  | nil => rfl
  | cons b t =>
    rw [noAdj_cons_cons, Bool.and_eq_true] at h
    exact h.2

theorem noAdj_cons_of (p : Char → Bool) (a : Char) (l : List Char)
    (hhead : ∀ c, l.head? = some c → (p a && p c) = false) (hl : noAdj p l = true) :
    noAdj p (a :: l) = true := by
  cases l with
  | nil => rfl
  | cons b t =>
    rw [noAdj_cons_cons, Bool.and_eq_true]
    exact ⟨by rw [hhead b rfl]; rfl, hl⟩

theorem collapseRuns_head_not (p : Char → Bool) :
    ∀ (l : List Char) (c : Char), (collapseRuns p l true).head? = some c → p c = false := by
  intro l
  induction l with
  | nil => intro c h; simp [collapseRuns] at h
  | cons d t ih =>
    intro c h
    unfold collapseRuns at h
    cases hd : p d with
    | true =>
      rw [hd, if_pos rfl, if_pos rfl] at h
      exact ih c h
    | false =>
      rw [hd, if_neg (by simp)] at h
      cases h
      exact hd

theorem noAdj_collapseRuns (p : Char → Bool) :
    ∀ (l : List Char) (b : Bool), noAdj p (collapseRuns p l b) = true := by
  intro l
  induction l with
  | nil => intro b; rfl
  | cons d t ih =>
    intro b
    unfold collapseRuns
    cases hd : p d with
    | true =>
      cases b with
      | true =>
        rw [if_pos rfl, if_pos rfl]
        exact ih true
      | false =>
        rw [if_pos rfl, if_neg (by simp)]
        refine noAdj_cons_of p ' ' _ ?_ (ih true)
        intro c hc
        rw [collapseRuns_head_not p t c hc, Bool.and_false]
    | false =>
      rw [if_neg (by simp)]
      refine noAdj_cons_of p d _ ?_ (ih false)
      intro c _
      rw [hd, Bool.false_and]

theorem noAdj_mono (p q : Char → Bool) (hpq : ∀ c, p c = true → q c = true) :
    ∀ (l : List Char), noAdj q l = true → noAdj p l = true := by
  intro l
  induction l with
  | nil => intro _; rfl
  | cons a t ih =>
    intro h
    cases t with
    | nil => rfl
    | cons b t2 =>
      rw [noAdj_cons_cons, Bool.and_eq_true] at h ⊢
      refine ⟨?_, ih h.2⟩
      by_cases hpa : p a = true
      · by_cases hpb : p b = true
        · rw [hpq a hpa, hpq b hpb] at h
          simpa using h.1
        · simp [hpb]
      · simp [hpa]

theorem noAdj_append_left (p : Char → Bool) :
    ∀ (l1 l2 : List Char), noAdj p (l1 ++ l2) = true → noAdj p l1 = true := by
  intro l1
  induction l1 with
  | nil => intro l2 _; rfl
  | cons a t ih =>
    intro l2 h
    cases t with
    | nil => rfl
    | cons b t2 =>
      rw [List.cons_append, List.cons_append, noAdj_cons_cons, Bool.and_eq_true] at h
      rw [noAdj_cons_cons, Bool.and_eq_true]
      rw [← List.cons_append] at h
      exact ⟨h.1, ih l2 h.2⟩

theorem noAdj_append_right (p : Char → Bool) :
    ∀ (l1 l2 : List Char), noAdj p (l1 ++ l2) = true → noAdj p l2 = true := by
  intro l1
  induction l1 with
  | nil => intro l2 h; exact h
  | cons a t ih =>
    intro l2 h
    rw [List.cons_append] at h
    exact ih l2 (noAdj_tail p a _ h)

theorem stripEnd_decomp : ∀ (l : List Char), ∃ l2, l = stripEnd l ++ l2 := by
  intro l
  induction l with
  | nil => exact ⟨[], rfl⟩
  | cons d t ih =>
    obtain ⟨l2, hl2⟩ := ih
    unfold stripEnd
    cases hs : stripEnd t with
    | nil =>
      by_cases hd : isPySpace d
      · rw [if_pos hd]
        exact ⟨d :: t, rfl⟩
      · rw [if_neg hd]
        exact ⟨t, rfl⟩
    | cons e es =>
      rw [hs] at hl2
      exact ⟨l2, by rw [List.cons_append, ← hl2]⟩

theorem noAdj_pyStrip (p : Char → Bool) (l : List Char) (h : noAdj p l = true) :
    noAdj p (pyStrip l) = true := by
  unfold pyStrip
  have h1 : noAdj p (l.dropWhile isPySpace) = true := by
    have := List.takeWhile_append_dropWhile (p := isPySpace) (l := l)
    rw [← this] at h
    exact noAdj_append_right p _ _ h
  obtain ⟨l2, hl2⟩ := stripEnd_decomp (l.dropWhile isPySpace)
  rw [hl2] at h1
  exact noAdj_append_left p _ _ h1


theorem py_imp_cls (c : Char) (h : isPySpace c = true) : isNormClass c = true := by
  unfold isNormClass
  rw [h]
  simp

theorem collapseRuns_true_eq_false (p : Char → Bool) (l : List Char)
    (h : ∀ c, l.head? = some c → p c = false) :
    collapseRuns p l true = collapseRuns p l false := by
  cases l with
  | nil => rfl
  | cons d t =>
    unfold collapseRuns
    rw [h d rfl]
    simp

theorem collapseRuns_eq_self (p : Char → Bool) (hsp : p ' ' = true) :
    ∀ (l : List Char), (∀ c ∈ l, p c = true → c = ' ') → noAdj p l = true →
      collapseRuns p l false = l := by
  intro l
  induction l with
  | nil => intro _ _; rfl
  | cons d t ih =>
    intro hall hadj
    have hat : noAdj p t = true := noAdj_tail p d t hadj
    have hallt : ∀ c ∈ t, p c = true → c = ' ' :=
      fun c hc => hall c (List.mem_cons_of_mem _ hc)
    unfold collapseRuns
    cases hd : p d with
    | true =>
      rw [if_pos rfl]
      have hd' : d = ' ' := hall d (List.mem_cons_self _ _) hd
      have hhead : ∀ c, t.head? = some c → p c = false := by
        intro c hc
        cases t with
        | nil => simp at hc
        | cons e t2 =>
          cases hc
          rw [noAdj_cons_cons, Bool.and_eq_true] at hadj
          have := hadj.1
          rw [hd] at this
          simpa using this
      rw [collapseRuns_true_eq_false p t hhead, ih hallt hat, hd']
      simp
    | false =>
      rw [if_neg (by simp)]
      rw [ih hallt hat]

theorem normalizeChars_eq (l : List Char) :
    normalizeChars l = pyStrip (collapseRuns isNormClass ((pyStrip l).map pyLower) false) := by
  unfold normalizeChars
  congr 1
  apply collapseRuns_eq_self isPySpace (by decide)
  · intro c hc hpy
    rcases mem_collapseRuns isNormClass _ _ hc with h1 | ⟨_, h3⟩
    · exact h1
    · rw [py_imp_cls c hpy] at h3
      exact absurd h3 (by simp)
  · exact noAdj_mono isPySpace isNormClass py_imp_cls _ (noAdj_collapseRuns isNormClass _ _)

theorem head_dropWhile_not (p : Char → Bool) :
    ∀ (l : List Char) (c : Char), (l.dropWhile p).head? = some c → p c = false := by
  intro l
  induction l with
  | nil => intro c h; simp at h
  | cons d t ih =>
    intro c h
    rw [List.dropWhile_cons] at h
    split at h
    · exact ih c h
    · cases h
      rename_i hd
      simpa using hd

theorem stripEnd_head (l : List Char) (d : Char) (ds : List Char)
    (h : stripEnd l = d :: ds) : l.head? = some d := by
  cases l with
  | nil => simp [stripEnd] at h
  | cons c t =>
    unfold stripEnd at h
    cases hs : stripEnd t with
    | nil =>
      rw [hs] at h
      by_cases hc : isPySpace c
      · rw [if_pos hc] at h; cases h
      · rw [if_neg hc] at h
        cases h
        rfl
    | cons e es =>
      rw [hs] at h
      cases h
      rfl

theorem getLast_stripEnd_not : ∀ (l : List Char) (c : Char),
    (stripEnd l).getLast? = some c → isPySpace c = false := by
  intro l
  induction l with
  | nil => intro c h; simp [stripEnd] at h
  | cons d t ih =>
    intro c h
    unfold stripEnd at h
    cases hs : stripEnd t with
    | nil =>
      rw [hs] at h
      by_cases hd : isPySpace d
      · rw [if_pos hd] at h; simp at h
      · rw [if_neg hd] at h
        have : d = c := by simpa using h
        rw [← this]
        simpa using hd
    | cons e es =>
      rw [hs] at h
      rw [List.getLast?_cons_cons] at h
      exact ih c (hs ▸ h)

theorem dropWhile_eq_self_of_head (p : Char → Bool) (l : List Char)
    (h : ∀ c, l.head? = some c → p c = false) : l.dropWhile p = l := by
  cases l with
  | nil => rfl
  | cons d t =>
    rw [List.dropWhile_cons, if_neg]
    rw [h d rfl]
    simp

theorem stripEnd_eq_self_of_getLast : ∀ (l : List Char),
    (∀ c, l.getLast? = some c → isPySpace c = false) → stripEnd l = l := by
  intro l
  induction l with
  | nil => intro _; rfl
  | cons d t ih =>
    intro h
    unfold stripEnd
    cases t with
    | nil =>
      have hd := h d rfl
      simp [stripEnd, hd]
    | cons e ts =>
      have ht : stripEnd (e :: ts) = e :: ts := by
        refine ih ?_
        intro c hc
        refine h c ?_
        rw [List.getLast?_cons_cons]
        exact hc
      rw [ht]

theorem map_pyLower_eq_self (l : List Char) (h : ∀ c ∈ l, pyLower c = c) :
    l.map pyLower = l := by
  induction l with
  | nil => rfl
  | cons d t ih =>
    rw [List.map_cons, h d (List.mem_cons_self _ _), ih (fun c hc => h c (List.mem_cons_of_mem _ hc))]


theorem pyStrip_head_not (l : List Char) (c : Char) (h : (pyStrip l).head? = some c) :
    isPySpace c = false := by
  unfold pyStrip at h
  cases hse : stripEnd (l.dropWhile isPySpace) with
  | nil => rw [hse] at h; simp at h
  | cons d ds =>
    rw [hse] at h
    have hdc : d = c := by simpa using h
    subst hdc
    exact head_dropWhile_not isPySpace l d (stripEnd_head _ d ds hse)

theorem pyStrip_getLast_not (l : List Char) (c : Char) (h : (pyStrip l).getLast? = some c) :
    isPySpace c = false := by
  unfold pyStrip at h
  exact getLast_stripEnd_not _ c h

theorem pyStrip_eq_self (l : List Char)
    (hhead : ∀ c, l.head? = some c → isPySpace c = false)
    (hlast : ∀ c, l.getLast? = some c → isPySpace c = false) : pyStrip l = l := by
  unfold pyStrip
  rw [dropWhile_eq_self_of_head isPySpace l hhead]
  exact stripEnd_eq_self_of_getLast l hlast

theorem normalizeChars_mem (l : List Char) (c : Char) (hc : c ∈ normalizeChars l) :
    pyLower c = c ∧ (isNormClass c = true → c = ' ') := by
  rw [normalizeChars_eq] at hc
  have hc2 := mem_pyStrip hc
  rcases mem_collapseRuns isNormClass _ _ hc2 with h1 | ⟨h2, h3⟩
  · subst h1
    exact ⟨by decide, fun _ => rfl⟩
  · constructor
    · obtain ⟨c0, _, hc0⟩ := List.mem_map.mp h2
      rw [← hc0]
      exact pyLower_idem c0
    · intro hcl
      rw [hcl] at h3
      exact absurd h3 (by simp)

theorem normalizeChars_noAdj (l : List Char) : noAdj isNormClass (normalizeChars l) = true := by
  rw [normalizeChars_eq]
  exact noAdj_pyStrip _ _ (noAdj_collapseRuns isNormClass _ _)

theorem normalizeChars_fixpoint (m : List Char)
    (hmem : ∀ c ∈ m, pyLower c = c ∧ (isNormClass c = true → c = ' '))
    (hadj : noAdj isNormClass m = true)
    (hhead : ∀ c, m.head? = some c → isPySpace c = false)
    (hlast : ∀ c, m.getLast? = some c → isPySpace c = false) :
    normalizeChars m = m := by
  rw [normalizeChars_eq, pyStrip_eq_self m hhead hlast,
    map_pyLower_eq_self m (fun c hc => (hmem c hc).1),
    collapseRuns_eq_self isNormClass (by decide) m (fun c hc => (hmem c hc).2) hadj]
  exact pyStrip_eq_self m hhead hlast

theorem normalizeChars_idem (l : List Char) :
    normalizeChars (normalizeChars l) = normalizeChars l :=
  normalizeChars_fixpoint _ (fun c hc => normalizeChars_mem l c hc)
    (normalizeChars_noAdj l)
    (fun c hc => by
      rw [normalizeChars_eq] at hc
      exact pyStrip_head_not _ c hc)
    (fun c hc => by
      rw [normalizeChars_eq] at hc
      exact pyStrip_getLast_not _ c hc)

/-- C6 (amended): the Text Normalizer is idempotent, maps empty input to
the empty string, and is case- and whitespace-insensitive; punctuation
runs collapse to single spaces (they are not deleted), so
`normalize("M.R.P.")` is `"m r p"` — equal to the normal form of any
case/punctuation variation of the same words, but not to
`normalize("mrp")`. -/
theorem c6_normalizer_idempotent :
    (∀ s, normalize_text (normalize_text s) = normalize_text s) ∧
    normalize_text "" = "" ∧
    normalize_text "M.R.P." = "m r p" ∧
    normalize_text "M.R.P." = normalize_text "  m_r-p " := by
  refine ⟨?_, rfl, by decide, by decide⟩
  intro s
  by_cases hs : s = ""
  · rw [hs]
    rfl
  · have hr : normalize_text s = String.mk (normalizeChars s.data) := by
      unfold normalize_text
      rw [if_neg hs]
    rw [hr]
    by_cases hr0 : String.mk (normalizeChars s.data) = ""
    · rw [hr0]
      rfl
    · have hr2 : normalize_text (String.mk (normalizeChars s.data))
          = String.mk (normalizeChars (String.mk (normalizeChars s.data)).data) := by
        unfold normalize_text
        rw [if_neg hr0]
      rw [hr2]
      show String.mk (normalizeChars (normalizeChars s.data)) = _
      rw [normalizeChars_idem]

/-- C6 (counterexample): `normalize("M.R.P.")` is `"m r p"`, while
`normalize("mrp")` is `"mrp"` — the two are different, refuting the
claimed punctuation-insensitivity equation. -/
theorem c6_counterexample :
    normalize_text "M.R.P." = "m r p" ∧ normalize_text "mrp" = "mrp" ∧
    ¬ normalize_text "M.R.P." = normalize_text "mrp" :=
  ⟨by decide, by decide, by decide⟩

end PO

